import Mathlib

/-!
Verification of the lox-rs front-end and evaluator against its specification.

The Rust sources are shallowly embedded:
* `src/lex/scanner.rs`, `src/lex/token_type.rs`, `src/lex/token.rs` → the `Lox.Scanner`
  development (strings are lists of characters; the Rust byte indices `start`/`current`
  become character indices, which is equivalent because the Rust code only ever slices
  at character boundaries delivered by `CharIndices`);
* `src/parse/*.rs` → the AST types and the fuel-indexed recursive-descent parser
  (the fuel only bounds recursion depth; theorems about parse *failures* always pin
  the exact `ParseError`, which the artificial out-of-fuel error can never fake);
* `src/analysis/resolver.rs` → `Lox.Resolver`;
* `src/interpreter/environment.rs`, `value.rs`, `error.rs`, `interpreter.rs` →
  `Lox.Env`, `Lox.Value`, `Lox.RuntimeError`, and the `binary`/`unary` evaluators.

Rust `HashMap<String, _>` is embedded as an association list with insert-replacing
semantics (`mapInsert`); Rust `f64` number payloads are embedded as `ℚ` (every number
literal of the language is a finite decimal; no claim settled here depends on IEEE
rounding or NaN behaviour).  A Rust `panic!` is embedded as the `.error` case of
`Except String`, so panic-freedom is the statement that a function never returns
`.error`.
-/

namespace Lox

/-- Association-list embedding of Rust `HashMap<String, β>`: lookup of the first
(unique) binding for a key. -/
def mapGet {β : Type} : List (String × β) → String → Option β
  | [], _ => none
  | (k, v) :: rest, key => if k = key then some v else mapGet rest key

/-- `HashMap::insert`: replaces an existing binding for the key, otherwise appends. -/
def mapInsert {β : Type} : List (String × β) → String → β → List (String × β)
  | [], key, val => [(key, val)]
  | (k, v) :: rest, key, val =>
    if k = key then (key, val) :: rest else (k, v) :: mapInsert rest key val

/-- `HashMap::contains_key`. -/
def mapContains {β : Type} (m : List (String × β)) (key : String) : Bool :=
  (mapGet m key).isSome

/-- `src/lex/token_type.rs`: the token-kind enumeration.  The enum in that file has
fallen behind the scanner: `scanner.rs` also constructs `ErrorUnclosedString` and
`ErrorMalformedNumber` tokens (and its unit tests expect them), so those two
variants are included here alongside `ErrorUnknownToken`. -/
inductive TokenType where
  | leftParen | rightParen | leftBrace | rightBrace
  | comma | dot | minus | plus | semicolon | slash | star
  | bang | bangEqual | equal | equalEqual
  | greater | greaterEqual | less | lessEqual
  | identifier | string_ | number | comment
  | and_ | class_ | else_ | false_ | fun_ | for_ | if_ | nil
  | or_ | print | return_ | super_ | this_ | true_ | var | while_
  | eof
  | errorUnknownToken | errorUnclosedString | errorMalformedNumber
deriving DecidableEq, Repr

/-- `TokenType::get`: the fixed keyword table; every other spelling is an identifier. -/
def TokenType.get (lexeme : String) : TokenType :=
  match lexeme with
  | "and" => .and_
  | "class" => .class_
  | "else" => .else_
  | "false" => .false_
  | "for" => .for_
  | "fun" => .fun_
  | "if" => .if_
  | "nil" => .nil
  | "or" => .or_
  | "print" => .print
  | "return" => .return_
  | "super" => .super_
  | "this" => .this_
  | "true" => .true_
  | "var" => .var
  | "while" => .while_
  | _ => .identifier

/-- `src/lex/token.rs`: a classified lexeme plus its source line. -/
structure Token where
  line : Nat
  typ : TokenType
  lexeme : String
deriving DecidableEq, Repr

/-- The opening-brace character, written numerically. -/
def lbraceChar : Char := Char.ofNat 123

/-- The closing-brace character, written numerically. -/
def rbraceChar : Char := Char.ofNat 125

/-- `src/lex/scanner.rs`: scanner state.  `source` is the full text, `pos` the index of
the next unconsumed character (Rust's `current` / the `CharIndices` cursor), `start`
the first index of the lexeme being scanned, `line` the running line counter. -/
structure Scanner where
  source : List Char
  pos : Nat
  start : Nat
  line : Nat
deriving Repr

/-- `Scanner::new`. -/
def Scanner.init (source : List Char) : Scanner :=
  { source := source, pos := 0, start := 0, line := 1 }

/-- The next character without advancing (`Scanner::peek`). -/
def Scanner.peekChar (s : Scanner) : Option Char :=
  s.source[s.pos]?

/-- `Scanner::advance`: consume one character, bumping the line counter on `\n`. -/
def Scanner.advance (s : Scanner) : Option (Char × Scanner) :=
  match s.source[s.pos]? with
  | none => none
  | some c =>
    some (c, { s with pos := s.pos + 1,
                      line := if c = '\n' then s.line + 1 else s.line })

/-- `Scanner::advance_if`: advance only when the next character satisfies `p`. -/
def Scanner.advanceIf (s : Scanner) (p : Char → Bool) : Option (Char × Scanner) :=
  match s.source[s.pos]? with
  | none => none
  | some c => if p c then s.advance else none

theorem Scanner.advanceIf_some {s : Scanner} {p : Char → Bool} {c : Char} {s' : Scanner}
    (h : s.advanceIf p = some (c, s')) :
    s'.source = s.source ∧ s'.start = s.start ∧ s'.pos = s.pos + 1 ∧
      s.pos < s.source.length ∧ s.source[s.pos]? = some c ∧ p c = true ∧
      s'.line = (if c = '\n' then s.line + 1 else s.line) := by
  unfold Scanner.advanceIf Scanner.advance at h
  cases hg : s.source[s.pos]? with
  | none => rw [hg] at h; cases h
  | some c0 =>
    rw [hg] at h
    dsimp only at h
    by_cases hp : p c0 = true
    · rw [if_pos hp] at h
      injection h with h
      injection h with hc hs
      subst hc; subst hs
      refine ⟨rfl, rfl, rfl, ?_, rfl, hp, rfl⟩
      exact (List.getElem?_eq_some.mp hg).1
    · rw [if_neg hp] at h; cases h

/-- Fuel-indexed loop body of `advance_while`; the wrapper `advanceWhile` supplies
`source.length + 1 - pos` fuel, which `advanceWhile_eq` proves is always enough (each
iteration advances `pos` by one and the loop stops at the end of input), so the
`fuel = 0` branch is unreachable from the wrapper and the pair is exactly the Rust
loop.  Structural recursion on fuel keeps the function kernel-reducible. -/
def Scanner.advanceWhileF (p : Char → Bool) : Nat → Scanner → Scanner
  | 0, s => s
  | fuel + 1, s =>
    match s.advanceIf p with
    | none => s
    | some (_, s') => advanceWhileF p fuel s'

/-- `Scanner::advance_while`: keep advancing while the predicate holds. -/
def Scanner.advanceWhile (s : Scanner) (p : Char → Bool) : Scanner :=
  Scanner.advanceWhileF p (s.source.length + 1 - s.pos) s

/-- The loop-unfolding equation of `advance_while`. -/
theorem Scanner.advanceWhile_eq (s : Scanner) (p : Char → Bool) :
    s.advanceWhile p =
      match s.advanceIf p with
      | none => s
      | some (_, s') => s'.advanceWhile p := by
  unfold Scanner.advanceWhile
  cases hif : s.advanceIf p with
  | none =>
    cases hfuel : s.source.length + 1 - s.pos with
    | zero => rfl
    | succ n => rw [Scanner.advanceWhileF, hif]
  | some cs =>
    obtain ⟨c, s'⟩ := cs
    obtain ⟨hsrc, _, hpos, hlt, _⟩ := Scanner.advanceIf_some hif
    have hfuel : s.source.length + 1 - s.pos = (s'.source.length + 1 - s'.pos) + 1 := by
      rw [hsrc, hpos]; omega
    rw [hfuel, Scanner.advanceWhileF, hif]

/-- Induction along the iterations of `advance_while`. -/
theorem Scanner.advanceWhile_induction (p : Char → Bool) (motive : Scanner → Prop)
    (base : ∀ s, s.advanceIf p = none → motive s)
    (step : ∀ s c s', s.advanceIf p = some (c, s') → motive s' → motive s) :
    ∀ s, motive s := by
  intro s
  have H : ∀ (n : Nat) (s : Scanner), s.source.length - s.pos ≤ n → motive s := by
    intro n
    induction n with
    | zero =>
      intro s hn
      cases hif : s.advanceIf p with
      | none => exact base s hif
      | some cs =>
        obtain ⟨c, s'⟩ := cs
        obtain ⟨_, _, _, hlt, _⟩ := Scanner.advanceIf_some hif
        omega
    | succ n ih =>
      intro s hn
      cases hif : s.advanceIf p with
      | none => exact base s hif
      | some cs =>
        obtain ⟨c, s'⟩ := cs
        obtain ⟨hsrc, _, hpos, hlt, _⟩ := Scanner.advanceIf_some hif
        refine step s c s' hif (ih s' ?_)
        rw [hsrc, hpos]
        omega
  exact H (s.source.length - s.pos) s (le_refl _)

theorem Scanner.advanceWhile_spec (s : Scanner) (p : Char → Bool) :
    (s.advanceWhile p).source = s.source ∧ (s.advanceWhile p).start = s.start ∧
      s.pos ≤ (s.advanceWhile p).pos ∧
      (s.advanceWhile p).pos ≤ max s.pos s.source.length := by
  induction s using Scanner.advanceWhile_induction p with
  | base s h =>
    rw [Scanner.advanceWhile_eq, h]
    exact ⟨rfl, rfl, le_refl _, le_max_left _ _⟩
  | step s c s' h ih =>
    obtain ⟨hsrc, hstart, hpos, hlt, _⟩ := Scanner.advanceIf_some h
    obtain ⟨ih1, ih2, ih3, ih4⟩ := ih
    rw [Scanner.advanceWhile_eq, h]
    dsimp only
    rw [hsrc] at ih1 ih4
    rw [hstart] at ih2
    exact ⟨ih1, ih2, by omega, by omega⟩

/-- After `advance_while p`, the next character (if any) fails `p`. -/
theorem Scanner.advanceWhile_peek {s : Scanner} {p : Char → Bool} {c : Char}
    (h : (s.advanceWhile p).peekChar = some c) : p c = false := by
  induction s using Scanner.advanceWhile_induction p with
  | base s hif =>
    rw [Scanner.advanceWhile_eq, hif] at h
    have h' : s.source[s.pos]? = some c := h
    unfold Scanner.advanceIf at hif
    rw [h'] at hif
    dsimp only at hif
    by_cases hp : p c = true
    · rw [if_pos hp] at hif
      unfold Scanner.advance at hif
      rw [h'] at hif
      cases hif
    · simpa using hp
  | step s c0 s' hif ih =>
    rw [Scanner.advanceWhile_eq, hif] at h
    exact ih h

/-- `Scanner::match_next`: advance past an expected character, reporting success. -/
def Scanner.matchNext (s : Scanner) (c : Char) : Bool × Scanner :=
  match s.advanceIf (fun next => c = next) with
  | some (_, s') => (true, s')
  | none => (false, s)

/-- `Scanner::skip_whitespace`. -/
def isWsChar (c : Char) : Bool :=
  c = ' ' || c = '\n' || c = '\t' || c = '\r'

def Scanner.skipWhitespace (s : Scanner) : Scanner :=
  s.advanceWhile isWsChar

/-- The digit predicate used by `advance_number`. -/
def isDigitCh (c : Char) : Bool :=
  '0' ≤ c && c ≤ '9'

/-- The identifier/keyword-character predicate `is_kw_char`. -/
def isKwChar (c : Char) : Bool :=
  ('A' ≤ c && c ≤ 'Z') || ('a' ≤ c && c ≤ 'z') || ('0' ≤ c && c ≤ '9') || c = '_'

/-- The first-character pattern of the identifier arm (`'A'..='Z' | 'a'..='z' | '_'`). -/
def isAlphaUnd (c : Char) : Bool :=
  ('A' ≤ c && c ≤ 'Z') || ('a' ≤ c && c ≤ 'z') || c = '_'

/-- `Scanner::current_lexeme`: the slice `source[start..current]`. -/
def Scanner.currentLexeme (s : Scanner) : String :=
  String.mk ((s.source.drop s.start).take (s.pos - s.start))

/-- `Scanner::advance_number`: the integer part's first digit is already consumed;
a decimal point must be followed by at least one digit or the token is malformed. -/
def Scanner.advanceNumber (s : Scanner) : TokenType × Scanner :=
  let s1 := s.advanceWhile isDigitCh
  match s1.matchNext '.' with
  | (true, s2) =>
    match s2.advanceIf isDigitCh with
    | some (_, s3) => (.number, s3.advanceWhile isDigitCh)
    | none => (.errorMalformedNumber, s2)
  | (false, s2) => (.number, s2)

/-- Build the token the tail of `scan_token` returns: current line, the given type, and
the lexeme scanned since `start`. -/
def Scanner.finishToken (s : Scanner) (typ : TokenType) :
    Except String (Option Token × Scanner) :=
  .ok (some { line := s.line, typ := typ, lexeme := s.currentLexeme }, s)

/-- Every arm of `scan_token`'s character `match` except the string-literal arm; each
arm yields a token type plus the state after its side effects.  The arms test disjoint
single characters, so keeping the string arm apart (handled in `scanToken`) preserves
the Rust semantics.  Braces are tested by equality against `lbraceChar`/`rbraceChar`. -/
def Scanner.scanSimple (ch : Char) (s2 : Scanner) : TokenType × Scanner :=
  if ch = '(' then (.leftParen, s2)
  else if ch = ')' then (.rightParen, s2)
  else if ch = lbraceChar then (.leftBrace, s2)
  else if ch = rbraceChar then (.rightBrace, s2)
  else if ch = ',' then (.comma, s2)
  else if ch = '.' then (.dot, s2)
  else if ch = '-' then (.minus, s2)
  else if ch = '+' then (.plus, s2)
  else if ch = ';' then (.semicolon, s2)
  else if ch = '*' then (.star, s2)
  else if ch = '!' then
    match s2.matchNext '=' with
    | (true, s3) => (.bangEqual, s3)
    | (false, s3) => (.bang, s3)
  else if ch = '=' then
    match s2.matchNext '=' with
    | (true, s3) => (.equalEqual, s3)
    | (false, s3) => (.equal, s3)
  else if ch = '<' then
    match s2.matchNext '=' with
    | (true, s3) => (.lessEqual, s3)
    | (false, s3) => (.less, s3)
  else if ch = '>' then
    match s2.matchNext '=' with
    | (true, s3) => (.greaterEqual, s3)
    | (false, s3) => (.greater, s3)
  else if ch = '/' then
    match s2.matchNext '/' with
    | (true, s3) => (.comment, s3.advanceWhile (fun c => !(c = '\n')))
    | (false, s3) => (.slash, s3)
  else if isDigitCh ch then s2.advanceNumber
  else if isAlphaUnd ch then
    let s3 := s2.advanceWhile isKwChar
    (TokenType.get s3.currentLexeme, s3)
  else (.errorUnknownToken, s2)

/-- `Scanner::scan_token`.  Returns `(none, s)` when the input is exhausted (Rust's
`None`, with the state still mutated by `skip_whitespace`), and `.error` exactly where
the Rust code would `panic!` (inside string-literal scanning). -/
def Scanner.scanToken (s0 : Scanner) : Except String (Option Token × Scanner) :=
  let sw := s0.skipWhitespace
  let s1 : Scanner := { sw with start := sw.pos }
  match s1.advance with
  | none => .ok (none, s1)
  | some (ch, s2) =>
    if ch = '"' then
      let s3 : Scanner := { s2 with start := s2.pos }
      let startingLine := s3.line
      let s4 := s3.advanceWhile (fun c => !(c = '"'))
      let tok : Token := { line := startingLine, typ := .string_, lexeme := s4.currentLexeme }
      match s4.advance with
      | some (c2, s5) =>
        if c2 = '"' then .ok (some tok, s5)
        else .error "String literal parsing finished but next character is not a quote"
      | none =>
        .ok (some { line := s4.line, typ := .errorUnclosedString,
                    lexeme := s4.currentLexeme }, s4)
    else
      let (typ, s3) := s2.scanSimple ch
      s3.finishToken typ

theorem Scanner.advance_some {s : Scanner} {c : Char} {s' : Scanner}
    (h : s.advance = some (c, s')) :
    s'.source = s.source ∧ s'.start = s.start ∧ s'.pos = s.pos + 1 ∧
      s.pos < s.source.length ∧ s.source[s.pos]? = some c := by
  unfold Scanner.advance at h
  cases hg : s.source[s.pos]? with
  | none => rw [hg] at h; cases h
  | some c0 =>
    rw [hg] at h
    injection h with h
    injection h with hc hs
    subst hc; subst hs
    exact ⟨rfl, rfl, rfl, (List.getElem?_eq_some.mp hg).1, rfl⟩

theorem Scanner.matchNext_spec (s : Scanner) (c : Char) :
    (s.matchNext c).2.source = s.source ∧ (s.matchNext c).2.start = s.start ∧
      s.pos ≤ (s.matchNext c).2.pos := by
  unfold Scanner.matchNext
  split
  · next _ _ h =>
    obtain ⟨h1, h2, h3, _⟩ := Scanner.advanceIf_some h
    exact ⟨h1, h2, by dsimp only; omega⟩
  · exact ⟨rfl, rfl, le_refl _⟩

theorem Scanner.advanceNumber_spec (s : Scanner) :
    (s.advanceNumber).2.source = s.source ∧ (s.advanceNumber).2.start = s.start ∧
      s.pos ≤ (s.advanceNumber).2.pos ∧
      ((s.advanceNumber).1 = .number ∨ (s.advanceNumber).1 = .errorMalformedNumber) := by
  obtain ⟨w1, w2, w3, _⟩ := Scanner.advanceWhile_spec s isDigitCh
  obtain ⟨m1, m2, m3⟩ := Scanner.matchNext_spec (s.advanceWhile isDigitCh) '.'
  unfold Scanner.advanceNumber
  dsimp only
  rcases hm : (s.advanceWhile isDigitCh).matchNext '.' with ⟨b, s2⟩
  rw [hm] at m1 m2 m3
  dsimp only at m1 m2 m3
  cases b
  · dsimp only
    exact ⟨by rw [m1, w1], by rw [m2, w2], by omega, Or.inl rfl⟩
  · dsimp only
    split
    · next c s3 hif =>
      obtain ⟨i1, i2, i3, _⟩ := Scanner.advanceIf_some hif
      obtain ⟨y1, y2, y3, _⟩ := Scanner.advanceWhile_spec s3 isDigitCh
      refine ⟨?_, ?_, ?_, Or.inl rfl⟩
      · dsimp only; rw [y1, i1, m1, w1]
      · dsimp only; rw [y2, i2, m2, w2]
      · dsimp only; omega
    · exact ⟨by dsimp only; rw [m1, w1], by dsimp only; rw [m2, w2],
        by dsimp only; omega, Or.inr rfl⟩

theorem TokenType.get_ne_eof (lexeme : String) : TokenType.get lexeme ≠ .eof := by
  unfold TokenType.get
  split <;> simp

set_option maxHeartbeats 1600000 in
theorem Scanner.scanSimple_spec (ch : Char) (s2 : Scanner) :
    (s2.scanSimple ch).2.source = s2.source ∧ s2.pos ≤ (s2.scanSimple ch).2.pos ∧
      (s2.scanSimple ch).1 ≠ .eof := by
  suffices hgen : ∀ p : TokenType × Scanner, s2.scanSimple ch = p →
      p.2.source = s2.source ∧ s2.pos ≤ p.2.pos ∧ p.1 ≠ .eof from hgen _ rfl
  intro p hp
  unfold Scanner.scanSimple at hp
  by_cases h1 : ch = '('
  · rw [if_pos h1] at hp; cases hp; exact ⟨rfl, le_refl _, by simp⟩
  rw [if_neg h1] at hp
  by_cases h2 : ch = ')'
  · rw [if_pos h2] at hp; cases hp; exact ⟨rfl, le_refl _, by simp⟩
  rw [if_neg h2] at hp
  by_cases h3 : ch = lbraceChar
  · rw [if_pos h3] at hp; cases hp; exact ⟨rfl, le_refl _, by simp⟩
  rw [if_neg h3] at hp
  by_cases h4 : ch = rbraceChar
  · rw [if_pos h4] at hp; cases hp; exact ⟨rfl, le_refl _, by simp⟩
  rw [if_neg h4] at hp
  by_cases h5 : ch = ','
  · rw [if_pos h5] at hp; cases hp; exact ⟨rfl, le_refl _, by simp⟩
  rw [if_neg h5] at hp
  by_cases h6 : ch = '.'
  · rw [if_pos h6] at hp; cases hp; exact ⟨rfl, le_refl _, by simp⟩
  rw [if_neg h6] at hp
  by_cases h7 : ch = '-'
  · rw [if_pos h7] at hp; cases hp; exact ⟨rfl, le_refl _, by simp⟩
  rw [if_neg h7] at hp
  by_cases h8 : ch = '+'
  · rw [if_pos h8] at hp; cases hp; exact ⟨rfl, le_refl _, by simp⟩
  rw [if_neg h8] at hp
  by_cases h9 : ch = ';'
  · rw [if_pos h9] at hp; cases hp; exact ⟨rfl, le_refl _, by simp⟩
  rw [if_neg h9] at hp
  by_cases h10 : ch = '*'
  · rw [if_pos h10] at hp; cases hp; exact ⟨rfl, le_refl _, by simp⟩
  rw [if_neg h10] at hp
  by_cases h11 : ch = '!'
  · rw [if_pos h11] at hp
    obtain ⟨m1, m2, m3⟩ := Scanner.matchNext_spec s2 '='
    rcases hm : s2.matchNext '=' with ⟨b, s3⟩
    rw [hm] at m1 m2 m3 hp
    dsimp only at m1 m2 m3
    cases b <;> (dsimp only at hp; cases hp; exact ⟨m1, m3, by simp⟩)
  rw [if_neg h11] at hp
  by_cases h12 : ch = '='
  · rw [if_pos h12] at hp
    obtain ⟨m1, m2, m3⟩ := Scanner.matchNext_spec s2 '='
    rcases hm : s2.matchNext '=' with ⟨b, s3⟩
    rw [hm] at m1 m2 m3 hp
    dsimp only at m1 m2 m3
    cases b <;> (dsimp only at hp; cases hp; exact ⟨m1, m3, by simp⟩)
  rw [if_neg h12] at hp
  by_cases h13 : ch = '<'
  · rw [if_pos h13] at hp
    obtain ⟨m1, m2, m3⟩ := Scanner.matchNext_spec s2 '='
    rcases hm : s2.matchNext '=' with ⟨b, s3⟩
    rw [hm] at m1 m2 m3 hp
    dsimp only at m1 m2 m3
    cases b <;> (dsimp only at hp; cases hp; exact ⟨m1, m3, by simp⟩)
  rw [if_neg h13] at hp
  by_cases h14 : ch = '>'
  · rw [if_pos h14] at hp
    obtain ⟨m1, m2, m3⟩ := Scanner.matchNext_spec s2 '='
    rcases hm : s2.matchNext '=' with ⟨b, s3⟩
    rw [hm] at m1 m2 m3 hp
    dsimp only at m1 m2 m3
    cases b <;> (dsimp only at hp; cases hp; exact ⟨m1, m3, by simp⟩)
  rw [if_neg h14] at hp
  by_cases h15 : ch = '/'
  · rw [if_pos h15] at hp
    obtain ⟨m1, m2, m3⟩ := Scanner.matchNext_spec s2 '/'
    rcases hm : s2.matchNext '/' with ⟨b, s3⟩
    rw [hm] at m1 m2 m3 hp
    dsimp only at m1 m2 m3
    cases b
    · dsimp only at hp; cases hp; exact ⟨m1, m3, by simp⟩
    · dsimp only at hp
      obtain ⟨a1, a2, a3, a4⟩ := Scanner.advanceWhile_spec s3 (fun c => !(c = '\n'))
      cases hp
      exact ⟨a1.trans m1, le_trans m3 a3, by simp⟩
  rw [if_neg h15] at hp
  by_cases h16 : isDigitCh ch = true
  · rw [if_pos h16] at hp
    obtain ⟨n1, n2, n3, n4⟩ := Scanner.advanceNumber_spec s2
    rw [hp] at n1 n2 n3 n4
    refine ⟨n1, n3, ?_⟩
    rcases n4 with h | h <;> rw [h] <;> simp
  rw [if_neg h16] at hp
  by_cases h17 : isAlphaUnd ch = true
  · rw [if_pos h17] at hp
    obtain ⟨a1, a2, a3, a4⟩ := Scanner.advanceWhile_spec s2 isKwChar
    dsimp only at hp
    cases hp
    exact ⟨a1, a3, TokenType.get_ne_eof _⟩
  rw [if_neg h17] at hp
  cases hp; exact ⟨rfl, le_refl _, by simp⟩

theorem Scanner.scanToken_spec (s0 : Scanner) :
    (∀ t s', s0.scanToken = .ok (some t, s') →
      s'.source = s0.source ∧ s0.pos < s'.pos ∧ s0.pos < s0.source.length ∧
        t.typ ≠ .eof) ∧
      ∀ m, s0.scanToken ≠ .error m := by
  suffices hgen : ∀ r, s0.scanToken = r →
      (∀ t s', r = .ok (some t, s') →
        s'.source = s0.source ∧ s0.pos < s'.pos ∧ s0.pos < s0.source.length ∧
          t.typ ≠ .eof) ∧ ∀ m, r ≠ .error m by
    obtain ⟨h1, h2⟩ := hgen _ rfl
    exact ⟨fun t s' h => h1 t s' h, h2⟩
  intro r hr
  obtain ⟨w1, w2, w3, w4⟩ := Scanner.advanceWhile_spec s0 isWsChar
  unfold Scanner.scanToken Scanner.skipWhitespace at hr
  dsimp only at hr
  split at hr
  · next hadv =>
    subst hr
    constructor
    · intro t s' h; cases h
    · intro m h; cases h
  · next ch s2 hadv =>
    obtain ⟨a1, a2, a3, a4, a5⟩ := Scanner.advance_some hadv
    have a1' : s2.source = s0.source := a1.trans w1
    have a3' : s2.pos = (s0.advanceWhile isWsChar).pos + 1 := a3
    have a4' : (s0.advanceWhile isWsChar).pos < s0.source.length := by
      rw [← w1]; exact a4
    split at hr
    · -- string-literal branch
      next hq =>
      obtain ⟨b1, b2, b3, b4⟩ :=
        Scanner.advanceWhile_spec { s2 with start := s2.pos } (fun c => !(c = '"'))
      have b1' : ({ s2 with start := s2.pos }.advanceWhile
          (fun c => !(c = '"'))).source = s2.source := b1
      have b3' : s2.pos ≤ ({ s2 with start := s2.pos }.advanceWhile
          (fun c => !(c = '"'))).pos := b3
      split at hr
      · next c2 s5 hadv2 =>
        obtain ⟨e1, e2, e3, e4, e5⟩ := Scanner.advance_some hadv2
        have hc2 : c2 = '"' := by
          have hpk := Scanner.advanceWhile_peek (p := fun c => !(c = '"'))
            (s := { s2 with start := s2.pos }) (c := c2) e5
          simpa using hpk
        rw [if_pos hc2] at hr
        subst hr
        constructor
        · intro t s' h
          injection h with h
          injection h with h1 h2
          injection h1 with h1
          subst h1; subst h2
          refine ⟨?_, ?_, ?_, by simp⟩
          · rw [e1, b1']; exact a1'
          · omega
          · omega
        · intro m h; cases h
      · next hadv2 =>
        subst hr
        constructor
        · intro t s' h
          injection h with h
          injection h with h1 h2
          injection h1 with h1
          subst h1; subst h2
          refine ⟨?_, ?_, ?_, by simp⟩
          · rw [b1']; exact a1'
          · omega
          · omega
        · intro m h; cases h
    · -- all other branches, via scanSimple
      next hq =>
      obtain ⟨c1, c2, c3⟩ := Scanner.scanSimple_spec ch s2
      rcases hs : s2.scanSimple ch with ⟨typ, s3⟩
      rw [hs] at c1 c2 c3 hr
      dsimp only at c1 c2 c3 hr
      unfold Scanner.finishToken at hr
      subst hr
      constructor
      · intro t s' h
        injection h with h
        injection h with h1 h2
        injection h1 with h1
        subst h1; subst h2
        exact ⟨by rw [c1]; exact a1', by omega, by omega, c3⟩
      · intro m h
        cases h

/-- `impl Iterator for Scanner`: the scanner plus its `eof` flag. -/
structure ScanIter where
  sc : Scanner
  eofFlag : Bool

/-- `Scanner::next` (the `Iterator` implementation): once the `eof` flag is set the
iterator yields nothing; otherwise it scans a token, and on end of input it emits a
single `Eof` token (at the current line, empty lexeme) and sets the flag. -/
def ScanIter.next (it : ScanIter) : Except String (Option (Token × ScanIter)) :=
  if it.eofFlag then .ok none
  else
    match it.sc.scanToken with
    | .error m => .error m
    | .ok (some t, s') => .ok (some (t, ⟨s', false⟩))
    | .ok (none, s1) =>
      .ok (some ({ line := s1.line, typ := .eof, lexeme := "" }, ⟨s1, true⟩))

theorem ScanIter.next_ne_error (it : ScanIter) (m : String) : it.next ≠ .error m := by
  unfold ScanIter.next
  split
  · intro h; cases h
  · obtain ⟨_, hne⟩ := Scanner.scanToken_spec it.sc
    split
    · next m' herr => exact absurd herr (hne m')
    · intro h; cases h
    · intro h; cases h

theorem ScanIter.next_none {it : ScanIter} (h : it.next = .ok none) :
    it.eofFlag = true := by
  unfold ScanIter.next at h
  split at h
  · assumption
  · split at h
    · cases h
    · cases h
    · cases h

theorem ScanIter.next_some_cases {it : ScanIter} {t : Token} {it' : ScanIter}
    (h : it.next = .ok (some (t, it'))) :
    it.eofFlag = false ∧
      ((t.typ ≠ TokenType.eof ∧ it'.eofFlag = false ∧
          it'.sc.source = it.sc.source ∧ it.sc.pos < it'.sc.pos ∧
          it.sc.pos < it.sc.source.length) ∨
        (t.typ = TokenType.eof ∧ t.lexeme = "" ∧ it'.eofFlag = true)) := by
  unfold ScanIter.next at h
  split at h
  · cases h
  · next hflag =>
    refine ⟨by simpa using hflag, ?_⟩
    obtain ⟨hsome, _⟩ := Scanner.scanToken_spec it.sc
    split at h
    · cases h
    · next t0 s' hscan =>
      injection h with h
      injection h with h
      injection h with h1 h2
      subst h1; subst h2
      obtain ⟨p1, p2, p3, p4⟩ := hsome t0 s' hscan
      exact Or.inl ⟨p4, rfl, p1, p2, p3⟩
    · next s1 hscan =>
      injection h with h
      injection h with h
      injection h with h1 h2
      subst h1; subst h2
      exact Or.inr ⟨rfl, rfl, rfl⟩

/-- Fuel that provably drains the iterator: one final step when the `eof` flag is
already set, otherwise one step per remaining character, plus the `Eof` emission and
the final `none`. -/
def ScanIter.fuelNeeded (it : ScanIter) : Nat :=
  if it.eofFlag then 1 else it.sc.source.length - it.sc.pos + 2

theorem ScanIter.fuelNeeded_eof {it : ScanIter} (h : it.eofFlag = true) :
    it.fuelNeeded = 1 := by
  simp [ScanIter.fuelNeeded, h]

theorem ScanIter.fuelNeeded_live {it : ScanIter} (h : it.eofFlag = false) :
    it.fuelNeeded = it.sc.source.length - it.sc.pos + 2 := by
  simp [ScanIter.fuelNeeded, h]

theorem ScanIter.fuelNeeded_pos (it : ScanIter) : 1 ≤ it.fuelNeeded := by
  unfold ScanIter.fuelNeeded
  split <;> omega

/-- Fuel-indexed iterator-draining loop; `run` supplies `fuelNeeded` fuel, and
`runF_congr` shows any fuel at least `fuelNeeded` computes the same stream, so the
`fuel = 0` branch is unreachable from `run` and the pair is exactly the Rust
`collect()` over the iterator. -/
def ScanIter.runF : Nat → ScanIter → Except String (List Token)
  | 0, _ => .ok []
  | fuel + 1, it =>
    match it.next with
    | .error m => .error m
    | .ok none => .ok []
    | .ok (some (t, it')) => (ScanIter.runF fuel it').map (t :: ·)

/-- Collect the whole token stream of the iterator (`Scanner::collect()` in the Rust
unit tests; the parser consumes the same stream lazily). -/
def ScanIter.run (it : ScanIter) : Except String (List Token) :=
  ScanIter.runF it.fuelNeeded it

theorem ScanIter.next_fuel {it : ScanIter} {t : Token} {it' : ScanIter}
    (h : it.next = .ok (some (t, it'))) (f : Nat) (hf : it.fuelNeeded ≤ f + 1) :
    it'.fuelNeeded ≤ f := by
  obtain ⟨hflag, hcases⟩ := ScanIter.next_some_cases h
  rw [ScanIter.fuelNeeded_live hflag] at hf
  rcases hcases with ⟨_, hf', hsrc, hlt, hbound⟩ | ⟨_, _, hf'⟩
  · rw [ScanIter.fuelNeeded_live hf', hsrc]
    omega
  · rw [ScanIter.fuelNeeded_eof hf']
    omega

theorem ScanIter.runF_congr (f1 : Nat) : ∀ (f2 : Nat) (it : ScanIter),
    it.fuelNeeded ≤ f1 → it.fuelNeeded ≤ f2 →
      ScanIter.runF f1 it = ScanIter.runF f2 it := by
  induction f1 with
  | zero =>
    intro f2 it h1 _
    exact absurd (le_trans (ScanIter.fuelNeeded_pos it) h1) (by omega)
  | succ f1 ih =>
    intro f2 it h1 h2
    cases f2 with
    | zero => exact absurd (le_trans (ScanIter.fuelNeeded_pos it) h2) (by omega)
    | succ f2 =>
      rw [ScanIter.runF, ScanIter.runF]
      cases hn : it.next with
      | error m => rfl
      | ok o =>
        cases o with
        | none => rfl
        | some ti =>
          obtain ⟨t, it'⟩ := ti
          dsimp only
          rw [ih f2 it' (ScanIter.next_fuel hn f1 h1) (ScanIter.next_fuel hn f2 h2)]

/-- The loop-unfolding equation of the iterator-draining loop. -/
theorem ScanIter.run_eq (it : ScanIter) :
    it.run =
      match it.next with
      | .error m => .error m
      | .ok none => .ok []
      | .ok (some (t, it')) => (it'.run).map (t :: ·) := by
  unfold ScanIter.run
  have h1 : it.fuelNeeded = (it.fuelNeeded - 1) + 1 := by
    have := ScanIter.fuelNeeded_pos it
    omega
  rw [h1, ScanIter.runF]
  cases hn : it.next with
  | error m => rfl
  | ok o =>
    cases o with
    | none => rfl
    | some ti =>
      obtain ⟨t, it'⟩ := ti
      dsimp only
      rw [ScanIter.runF_congr _ _ it'
        (ScanIter.next_fuel hn (it.fuelNeeded - 1) (by omega)) (le_refl _)]

theorem ScanIter.run_eofFlag {it : ScanIter} (h : it.eofFlag = true) :
    it.run = .ok [] := by
  rw [ScanIter.run_eq]
  cases hn : it.next with
  | error m => exact absurd hn (ScanIter.next_ne_error it m)
  | ok o =>
    cases o with
    | none => rfl
    | some ti =>
      obtain ⟨t, it'⟩ := ti
      obtain ⟨hflag, _⟩ := ScanIter.next_some_cases hn
      rw [h] at hflag
      cases hflag

theorem ScanIter.run_spec_aux (n : Nat) : ∀ it : ScanIter, it.fuelNeeded ≤ n →
    it.eofFlag = false →
      ∃ body ln,
        it.run = .ok (body ++ [{ line := ln, typ := TokenType.eof, lexeme := "" }]) ∧
          ∀ t ∈ body, t.typ ≠ TokenType.eof := by
  induction n with
  | zero =>
    intro it h1 _
    exact absurd (le_trans (ScanIter.fuelNeeded_pos it) h1) (by omega)
  | succ n ih =>
    intro it hfuel hflag0
    rw [ScanIter.run_eq]
    cases hn : it.next with
    | error m => exact absurd hn (ScanIter.next_ne_error it m)
    | ok o =>
      cases o with
      | none =>
        rw [ScanIter.next_none hn] at hflag0
        cases hflag0
      | some ti =>
        obtain ⟨t, it'⟩ := ti
        dsimp only
        obtain ⟨hflag, hcases⟩ := ScanIter.next_some_cases hn
        rcases hcases with ⟨hne, hf', _, _, _⟩ | ⟨htyp, hlex, hf'⟩
        · obtain ⟨body, ln, hrun, hmem⟩ := ih it' (ScanIter.next_fuel hn n hfuel) hf'
          refine ⟨t :: body, ln, ?_, ?_⟩
          · rw [hrun]; rfl
          · intro u hu
            rcases List.mem_cons.mp hu with hu | hu
            · subst hu; exact hne
            · exact hmem u hu
        · refine ⟨[], t.line, ?_, by simp⟩
          rw [ScanIter.run_eofFlag hf']
          simp only [Except.map, List.nil_append]
          have ht : t = { line := t.line, typ := TokenType.eof, lexeme := "" } := by
            cases t
            simp_all
          rw [← ht]

theorem ScanIter.run_spec (it : ScanIter) :
    it.eofFlag = false →
      ∃ body ln,
        it.run = .ok (body ++ [{ line := ln, typ := TokenType.eof, lexeme := "" }]) ∧
          ∀ t ∈ body, t.typ ≠ TokenType.eof :=
  ScanIter.run_spec_aux it.fuelNeeded it (le_refl _)

/-- When every remaining character satisfies `p`, `advance_while p` consumes the whole
rest of the input, bumping the line counter once per consumed `\n`. -/
theorem Scanner.advanceWhile_consumeAll (s : Scanner) (p : Char → Bool)
    (hall : ∀ c ∈ s.source.drop s.pos, p c = true) (hle : s.pos ≤ s.source.length) :
    (s.advanceWhile p).pos = s.source.length ∧
      (s.advanceWhile p).line =
        s.line + (s.source.drop s.pos).countP (fun c => c = '\n') := by
  induction s using Scanner.advanceWhile_induction p with
  | base s h =>
    rw [Scanner.advanceWhile_eq, h]
    · cases hg : s.source[s.pos]? with
      | none =>
        have hlen : s.source.length ≤ s.pos := by
          by_contra hc
          push_neg at hc
          rw [List.getElem?_eq_getElem hc] at hg
          cases hg
        have hpos : s.pos = s.source.length := le_antisymm hle hlen
        have hdrop : s.source.drop s.pos = [] := by
          apply List.drop_eq_nil_of_le
          omega
        rw [hdrop]
        simp [hpos]
      | some c =>
        have hc : c ∈ s.source.drop s.pos := by
          have hlt : s.pos < s.source.length := (List.getElem?_eq_some.mp hg).1
          have : s.source.drop s.pos = c :: s.source.drop (s.pos + 1) := by
            rw [List.drop_eq_getElem_cons hlt]
            congr 1
            have := List.getElem?_eq_getElem hlt
            rw [this] at hg
            injection hg
          rw [this]
          exact List.mem_cons_self _ _
        have hp := hall c hc
        unfold Scanner.advanceIf at h
        rw [hg] at h
        dsimp only at h
        rw [hp, if_pos rfl] at h
        unfold Scanner.advance at h
        rw [hg] at h
        cases h
  | step s c s' h ih =>
    rw [Scanner.advanceWhile_eq, h]
    dsimp only
    · obtain ⟨hsrc, hstart, hpos, hlt, hget, hp, hline⟩ := Scanner.advanceIf_some h
      have hdrop : s.source.drop s.pos = c :: s.source.drop (s.pos + 1) := by
        rw [List.drop_eq_getElem_cons hlt]
        congr 1
        have := List.getElem?_eq_getElem hlt
        rw [this] at hget
        injection hget
      have hall' : ∀ d ∈ s'.source.drop s'.pos, p d = true := by
        intro d hd
        apply hall
        rw [hdrop]
        rw [hsrc, hpos] at hd
        exact List.mem_cons_of_mem _ hd
      have hle' : s'.pos ≤ s'.source.length := by
        rw [hsrc, hpos]; omega
      obtain ⟨ih1, ih2⟩ := ih hall' hle'
      constructor
      · rw [ih1, hsrc]
      · rw [ih2, hline, hdrop]
        rw [hsrc, hpos]
        rw [List.countP_cons]
        by_cases hnl : c = '\n'
        · simp [hnl]
          try omega
        · simp [hnl]
          try omega

/-- The iterator over a fresh scanner for the given source text. -/
def scanInit (src : List Char) : ScanIter :=
  { sc := Scanner.init src, eofFlag := false }

/-- The full token stream of a source text (`.error` would be a Rust panic). -/
def lexTokens (src : List Char) : Except String (List Token) :=
  (scanInit src).run

/-- The token stream the parser consumes; by `lexTokens_no_panic` the `.error`
fallback never fires. -/
def tokensOf (src : List Char) : List Token :=
  match lexTokens src with
  | .ok ts => ts
  | .error _ => []

/-- `src/parse/expr.rs`: unary operators. -/
inductive UnaryOp where
  | not | minus
deriving DecidableEq, Repr

/-- `src/parse/expr.rs`: binary operators. -/
inductive BinaryOp where
  | mult | div | add | sub | greater | greaterEqual | less | lessEqual | notEqual | equal
deriving DecidableEq, Repr

/-- `src/parse/expr.rs`: logical operators. -/
inductive LogicalOp where
  | and_ | or_
deriving DecidableEq, Repr

/-- `src/parse/expr.rs`: literal constants.  The Rust `f64` payload of `Number` is
embedded as `ℚ`: every number literal of the language is a finite decimal, and no
claim settled in this file depends on IEEE rounding or NaN behaviour. -/
inductive Literal where
  | nil
  | bool (b : Bool)
  | number (n : ℚ)
  | string_ (s : String)
deriving DecidableEq, Repr

/-- `src/parse/expr.rs`: expression AST.  The `call` variant is taken from
`parser.rs`/`interpreter` use sites (`Expr::Call { callee, args }`); the checked-in
`expr.rs` is a stale snapshot that predates call expressions. -/
inductive Expr where
  | unary (op : UnaryOp) (right : Expr)
  | binary (left : Expr) (op : BinaryOp) (right : Expr)
  | grouping (e : Expr)
  | literal (lit : Literal)
  | variable_ (name : String)
  | assign (name : String) (expr : Expr)
  | logical (left : Expr) (op : LogicalOp) (right : Expr)
  | call (callee : Expr) (args : List Expr)
deriving Repr

/-- `src/parse/stmt.rs`: statement AST (`Return` carries an optional expression; the
parser builds it from `Stmt::Return(expr)`). -/
inductive Stmt where
  | expression (e : Expr)
  | if_ (condition : Expr) (thenBranch : Stmt) (elseBranch : Option Stmt)
  | print (e : Expr)
  | var (name : String) (initializer : Option Expr)
  | function_ (name : String) (params : List String) (body : List Stmt)
  | block (stmts : List Stmt)
  | while_ (condition : Expr) (body : Stmt)
  | return_ (expr : Option Expr)
deriving Repr

/-- `src/parse/error.rs`: parse errors.  `selfInitializedVar` is constructed by
`analysis/resolver.rs` (`ParseError::SelfInitializedVar`); the checked-in `error.rs`
is a stale snapshot missing that variant.  `outOfFuel` is an embedding artifact: the
parser's recursion depth is bounded by explicit fuel, this error marks exhaustion,
wrappers pass enough fuel for the inputs under study, and every theorem about a parse
*failure* pins a different, specific error so `outOfFuel` can never stand in for a
real result. -/
inductive ParseError where
  | unexpectedEnd (expected : String)
  | unexpectedToken (actual : TokenType) (line : Nat) (lexeme : String) (expected : String)
  | invalidAssignment (line : Nat)
  | tooManyArguments (line : Nat)
  | selfInitializedVar (name : String)
  | outOfFuel
deriving DecidableEq, Repr

/-- `ParseError::end`. -/
def ParseError.atEnd (msg : String) : ParseError :=
  .unexpectedEnd msg

/-- `ParseError::wrong_token`. -/
def ParseError.wrongToken (token : Token) (msg : String) : ParseError :=
  .unexpectedToken token.typ token.line token.lexeme msg

/-- The Rust `Debug` rendering of a token type (used by `format!("token of type
{typ:?}")` in `Parser::consume`). -/
def TokenType.debugName : TokenType → String
  | .leftParen => "LeftParen"
  | .rightParen => "RightParen"
  | .leftBrace => "LeftBrace"
  | .rightBrace => "RightBrace"
  | .comma => "Comma"
  | .dot => "Dot"
  | .minus => "Minus"
  | .plus => "Plus"
  | .semicolon => "Semicolon"
  | .slash => "Slash"
  | .star => "Star"
  | .bang => "Bang"
  | .bangEqual => "BangEqual"
  | .equal => "Equal"
  | .equalEqual => "EqualEqual"
  | .greater => "Greater"
  | .greaterEqual => "GreaterEqual"
  | .less => "Less"
  | .lessEqual => "LessEqual"
  | .identifier => "Identifier"
  | .string_ => "String_"
  | .number => "Number"
  | .comment => "Comment"
  | .and_ => "And"
  | .class_ => "Class"
  | .else_ => "Else"
  | .false_ => "False"
  | .fun_ => "Fun"
  | .for_ => "For"
  | .if_ => "If"
  | .nil => "Nil"
  | .or_ => "Or"
  | .print => "Print"
  | .return_ => "Return"
  | .super_ => "Super"
  | .this_ => "This"
  | .true_ => "True"
  | .var => "Var"
  | .while_ => "While"
  | .eof => "Eof"
  | .errorUnknownToken => "ErrorUnknownToken"
  | .errorUnclosedString => "ErrorUnclosedString"
  | .errorMalformedNumber => "ErrorMalformedNumber"

/-- Digit-string accumulator used to give number lexemes a value. -/
def digitsToNat (cs : List Char) : Nat :=
  cs.foldl (fun acc c => acc * 10 + (c.toNat - '0'.toNat)) 0

/-- Numeric value of a number lexeme (Rust `token.lexeme.parse::<f64>().unwrap()` in
`Parser::primary`), with numbers embedded as exact rationals.  A malformed lexeme —
which the scanner never attaches to a `Number` token — yields `0` here instead of
Rust's `unwrap` panic; no claim depends on that corner. -/
def parseNumberLexeme (s : String) : ℚ :=
  let cs := s.toList
  let intPart := cs.takeWhile (fun c => !(c = '.'))
  let rest := cs.dropWhile (fun c => !(c = '.'))
  match rest with
  | [] => (digitsToNat intPart : ℚ)
  | _ :: frac => (digitsToNat intPart : ℚ) + (digitsToNat frac : ℚ) / ((10 : ℚ) ^ frac.length)

namespace Parser

/-!
`src/parse/parser.rs`, shallowly embedded.  The Rust `Parser` owns a peekable token
iterator; here each production takes the remaining token list and returns the parse
result paired with the unconsumed rest.  The `Nat` argument is recursion-depth fuel
(see `ParseError.outOfFuel`); every Rust loop becomes a fuel-indexed recursive helper
named after its enclosing function.
-/

/-- `Parser::advance_expect`. -/
def advanceExpect (message : String) (pred : Token → Bool) (toks : List Token) :
    Except ParseError (Token × List Token) :=
  match toks with
  | [] => .error (ParseError.atEnd message)
  | token :: rest =>
    if pred token then .ok (token, rest) else .error (ParseError.wrongToken token message)

/-- `Parser::advance_any_of`. -/
def advanceAnyOf (typs : List TokenType) (toks : List Token) :
    Option (Token × List Token) :=
  match toks with
  | [] => none
  | token :: rest => if typs.contains token.typ then some (token, rest) else none

/-- `Parser::advance_only`. -/
def advanceOnly (typ : TokenType) (toks : List Token) : Option (Token × List Token) :=
  match toks with
  | [] => none
  | token :: rest => if token.typ = typ then some (token, rest) else none

/-- `Parser::match_next`. -/
def matchNext (typ : TokenType) (toks : List Token) : Bool × List Token :=
  match advanceOnly typ toks with
  | some (_, rest) => (true, rest)
  | none => (false, toks)

/-- `Parser::consume`. -/
def consume (typ : TokenType) (toks : List Token) : Except ParseError (Token × List Token) :=
  advanceExpect ("token of type " ++ typ.debugName) (fun t => t.typ = typ) toks

/-- `Parser::is_done`: the next token is absent or `Eof`. -/
def isDone (toks : List Token) : Bool :=
  match toks with
  | [] => true
  | token :: _ => token.typ = TokenType.eof

mutual

/-- `Parser::parse`: top-level statements until `is_done`. -/
def parseLoop : Nat → List Token → Except ParseError (List Stmt × List Token)
  | 0, _ => .error .outOfFuel
  | fuel + 1, toks =>
    if isDone toks then .ok ([], toks)
    else
      match declaration fuel toks with
      | .error e => .error e
      | .ok (stmt, toks) =>
        match parseLoop fuel toks with
        | .error e => .error e
        | .ok (stmts, toks) => .ok (stmt :: stmts, toks)

/-- `Parser::declaration`. -/
def declaration : Nat → List Token → Except ParseError (Stmt × List Token)
  | 0, _ => .error .outOfFuel
  | fuel + 1, toks =>
    match matchNext TokenType.var toks with
    | (true, toks) => varDecl fuel toks
    | (false, toks) =>
      match matchNext TokenType.fun_ toks with
      | (true, toks) => funcDecl fuel toks
      | (false, toks) => statement fuel toks

/-- `Parser::var_decl` (the `var` keyword is already consumed). -/
def varDecl : Nat → List Token → Except ParseError (Stmt × List Token)
  | 0, _ => .error .outOfFuel
  | fuel + 1, toks =>
    match consume TokenType.identifier toks with
    | .error e => .error e
    | .ok (nameTok, toks) =>
      match matchNext TokenType.equal toks with
      | (true, toks) =>
        match expression fuel toks with
        | .error e => .error e
        | .ok (init, toks) =>
          match consume TokenType.semicolon toks with
          | .error e => .error e
          | .ok (_, toks) => .ok (Stmt.var nameTok.lexeme (some init), toks)
      | (false, toks) =>
        match consume TokenType.semicolon toks with
        | .error e => .error e
        | .ok (_, toks) => .ok (Stmt.var nameTok.lexeme none, toks)

/-- `Parser::func_decl` (the `fun` keyword is already consumed). -/
def funcDecl : Nat → List Token → Except ParseError (Stmt × List Token)
  | 0, _ => .error .outOfFuel
  | fuel + 1, toks =>
    match consume TokenType.identifier toks with
    | .error e => .error e
    | .ok (identTok, toks) =>
      match consume TokenType.leftParen toks with
      | .error e => .error e
      | .ok (_, toks) =>
        match matchNext TokenType.rightParen toks with
        | (true, toks) => funcBody fuel identTok.lexeme [] toks
        | (false, toks) =>
          match consume TokenType.identifier toks with
          | .error e => .error e
          | .ok (p1, toks) =>
            match paramsLoop fuel [p1.lexeme] toks with
            | .error e => .error e
            | .ok (params, toks) =>
              match consume TokenType.rightParen toks with
              | .error e => .error e
              | .ok (_, toks) => funcBody fuel identTok.lexeme params toks

/-- The `while let Some(token) = self.advance_only(Comma)` parameter loop of
`func_decl`, including the 255-parameter cap checked at each comma. -/
def paramsLoop : Nat → List String → List Token →
    Except ParseError (List String × List Token)
  | 0, _, _ => .error .outOfFuel
  | fuel + 1, params, toks =>
    match advanceOnly TokenType.comma toks with
    | some (token, toks) =>
      if 255 ≤ params.length then .error (ParseError.tooManyArguments token.line)
      else
        match consume TokenType.identifier toks with
        | .error e => .error e
        | .ok (p, toks) => paramsLoop fuel (params ++ [p.lexeme]) toks
    | none => .ok (params, toks)

/-- The shared tail of `func_decl`: brace-delimited body, then the `Stmt::Function`
node. -/
def funcBody : Nat → String → List String → List Token →
    Except ParseError (Stmt × List Token)
  | 0, _, _, _ => .error .outOfFuel
  | fuel + 1, name, params, toks =>
    match consume TokenType.leftBrace toks with
    | .error e => .error e
    | .ok (_, toks) =>
      match blockStmts fuel toks with
      | .error e => .error e
      | .ok (body, toks) => .ok (Stmt.function_ name params body, toks)

/-- `Parser::block_stmts` (also the body of the `LeftBrace` arm of `statement`, whose
inline loop is identical): declarations until the closing brace, which is consumed. -/
def blockStmts : Nat → List Token → Except ParseError (List Stmt × List Token)
  | 0, _ => .error .outOfFuel
  | fuel + 1, toks =>
    if (toks.head?.map Token.typ) = some TokenType.rightBrace then
      match consume TokenType.rightBrace toks with
      | .error e => .error e
      | .ok (_, toks) => .ok ([], toks)
    else
      match declaration fuel toks with
      | .error e => .error e
      | .ok (stmt, toks) =>
        match blockStmts fuel toks with
        | .error e => .error e
        | .ok (stmts, toks) => .ok (stmt :: stmts, toks)

/-- `Parser::statement`. -/
def statement : Nat → List Token → Except ParseError (Stmt × List Token)
  | 0, _ => .error .outOfFuel
  | fuel + 1, toks =>
    match advanceAnyOf [TokenType.print, TokenType.leftBrace, TokenType.if_,
        TokenType.while_, TokenType.for_, TokenType.return_] toks with
    | some (token, toks) =>
      match token.typ with
      | TokenType.print =>
        match expression fuel toks with
        | .error e => .error e
        | .ok (value, toks) =>
          match consume TokenType.semicolon toks with
          | .error e => .error e
          | .ok (_, toks) => .ok (Stmt.print value, toks)
      | TokenType.leftBrace =>
        match blockStmts fuel toks with
        | .error e => .error e
        | .ok (statements, toks) => .ok (Stmt.block statements, toks)
      | TokenType.if_ =>
        match consume TokenType.leftParen toks with
        | .error e => .error e
        | .ok (_, toks) =>
          match expression fuel toks with
          | .error e => .error e
          | .ok (condition, toks) =>
            match consume TokenType.rightParen toks with
            | .error e => .error e
            | .ok (_, toks) =>
              match statement fuel toks with
              | .error e => .error e
              | .ok (thenBranch, toks) =>
                match matchNext TokenType.else_ toks with
                | (true, toks) =>
                  match statement fuel toks with
                  | .error e => .error e
                  | .ok (elseBranch, toks) =>
                    .ok (Stmt.if_ condition thenBranch (some elseBranch), toks)
                | (false, toks) => .ok (Stmt.if_ condition thenBranch none, toks)
      | TokenType.while_ =>
        match consume TokenType.leftParen toks with
        | .error e => .error e
        | .ok (_, toks) =>
          match expression fuel toks with
          | .error e => .error e
          | .ok (condition, toks) =>
            match consume TokenType.rightParen toks with
            | .error e => .error e
            | .ok (_, toks) =>
              match statement fuel toks with
              | .error e => .error e
              | .ok (body, toks) => .ok (Stmt.while_ condition body, toks)
      | TokenType.for_ =>
        match consume TokenType.leftParen toks with
        | .error e => .error e
        | .ok (_, toks) =>
          match forInitializer fuel toks with
          | .error e => .error e
          | .ok (initializer, toks) =>
            match forCondition fuel toks with
            | .error e => .error e
            | .ok (condition, toks) =>
              match forIncrement fuel toks with
              | .error e => .error e
              | .ok (increment, toks) =>
                match statement fuel toks with
                | .error e => .error e
                | .ok (body0, toks) =>
                  let body1 := match increment with
                    | some incr => Stmt.block [body0, Stmt.expression incr]
                    | none => body0
                  let body2 := Stmt.while_
                    (match condition with
                      | some c => c
                      | none => Expr.literal (Literal.bool true)) body1
                  let body3 := match initializer with
                    | some init => Stmt.block [init, body2]
                    | none => body2
                  .ok (body3, toks)
      | TokenType.return_ =>
        match returnValue fuel toks with
        | .error e => .error e
        | .ok (expr, toks) =>
          match consume TokenType.semicolon toks with
          | .error e => .error e
          | .ok (_, toks) => .ok (Stmt.return_ expr, toks)
      | _ => exprStmt fuel toks
    | none => exprStmt fuel toks

/-- The initializer clause of the `for` desugaring inside `statement`. -/
def forInitializer : Nat → List Token → Except ParseError (Option Stmt × List Token)
  | 0, _ => .error .outOfFuel
  | fuel + 1, toks =>
    match matchNext TokenType.semicolon toks with
    | (true, toks) => .ok (none, toks)
    | (false, toks) =>
      match matchNext TokenType.var toks with
      | (true, toks) =>
        match varDecl fuel toks with
        | .error e => .error e
        | .ok (stmt, toks) => .ok (some stmt, toks)
      | (false, toks) =>
        match exprStmt fuel toks with
        | .error e => .error e
        | .ok (stmt, toks) => .ok (some stmt, toks)

/-- The condition clause of the `for` desugaring inside `statement`. -/
def forCondition : Nat → List Token → Except ParseError (Option Expr × List Token)
  | 0, _ => .error .outOfFuel
  | fuel + 1, toks =>
    match matchNext TokenType.semicolon toks with
    | (true, toks) => .ok (none, toks)
    | (false, toks) =>
      match expression fuel toks with
      | .error e => .error e
      | .ok (expr, toks) =>
        match consume TokenType.semicolon toks with
        | .error e => .error e
        | .ok (_, toks) => .ok (some expr, toks)

/-- The increment clause of the `for` desugaring inside `statement`. -/
def forIncrement : Nat → List Token → Except ParseError (Option Expr × List Token)
  | 0, _ => .error .outOfFuel
  | fuel + 1, toks =>
    match matchNext TokenType.rightParen toks with
    | (true, toks) => .ok (none, toks)
    | (false, toks) =>
      match expression fuel toks with
      | .error e => .error e
      | .ok (expr, toks) =>
        match consume TokenType.rightParen toks with
        | .error e => .error e
        | .ok (_, toks) => .ok (some expr, toks)

/-- The optional value of a `return` statement inside `statement`. -/
def returnValue : Nat → List Token → Except ParseError (Option Expr × List Token)
  | 0, _ => .error .outOfFuel
  | fuel + 1, toks =>
    if (toks.head?.map Token.typ) = some TokenType.semicolon then .ok (none, toks)
    else
      match expression fuel toks with
      | .error e => .error e
      | .ok (expr, toks) => .ok (some expr, toks)

/-- `Parser::expr_stmt`. -/
def exprStmt : Nat → List Token → Except ParseError (Stmt × List Token)
  | 0, _ => .error .outOfFuel
  | fuel + 1, toks =>
    match expression fuel toks with
    | .error e => .error e
    | .ok (expr, toks) =>
      match consume TokenType.semicolon toks with
      | .error e => .error e
      | .ok (_, toks) => .ok (Stmt.expression expr, toks)

/-- `Parser::expression`. -/
def expression : Nat → List Token → Except ParseError (Expr × List Token)
  | 0, _ => .error .outOfFuel
  | fuel + 1, toks => assignment fuel toks

/-- `Parser::assignment`: right-associative, and only a bare variable reference is a
legal target (checked after the right-hand side has been parsed, as in the source). -/
def assignment : Nat → List Token → Except ParseError (Expr × List Token)
  | 0, _ => .error .outOfFuel
  | fuel + 1, toks =>
    match orExpr fuel toks with
    | .error e => .error e
    | .ok (expr, toks) =>
      match advanceOnly TokenType.equal toks with
      | some (token, toks) =>
        match assignment fuel toks with
        | .error e => .error e
        | .ok (value, toks) =>
          match expr with
          | Expr.variable_ name => .ok (Expr.assign name value, toks)
          | _ => .error (ParseError.invalidAssignment token.line)
      | none => .ok (expr, toks)

/-- `Parser::or` (its `while` loop keeps folding, but the right operand is the fully
recursive `self.or()`, exactly as in the source). -/
def orExpr : Nat → List Token → Except ParseError (Expr × List Token)
  | 0, _ => .error .outOfFuel
  | fuel + 1, toks =>
    match andExpr fuel toks with
    | .error e => .error e
    | .ok (expr, toks) => orLoop fuel expr toks

def orLoop : Nat → Expr → List Token → Except ParseError (Expr × List Token)
  | 0, _, _ => .error .outOfFuel
  | fuel + 1, expr, toks =>
    match matchNext TokenType.or_ toks with
    | (true, toks) =>
      match orExpr fuel toks with
      | .error e => .error e
      | .ok (right, toks) => orLoop fuel (Expr.logical expr LogicalOp.or_ right) toks
    | (false, toks) => .ok (expr, toks)

/-- `Parser::and` (same shape as `or`). -/
def andExpr : Nat → List Token → Except ParseError (Expr × List Token)
  | 0, _ => .error .outOfFuel
  | fuel + 1, toks =>
    match equality fuel toks with
    | .error e => .error e
    | .ok (expr, toks) => andLoop fuel expr toks

def andLoop : Nat → Expr → List Token → Except ParseError (Expr × List Token)
  | 0, _, _ => .error .outOfFuel
  | fuel + 1, expr, toks =>
    match matchNext TokenType.and_ toks with
    | (true, toks) =>
      match andExpr fuel toks with
      | .error e => .error e
      | .ok (right, toks) => andLoop fuel (Expr.logical expr LogicalOp.and_ right) toks
    | (false, toks) => .ok (expr, toks)

/-- `Parser::equality`: at most one equality operator; a dangling second one is left
unconsumed for the caller to choke on. -/
def equality : Nat → List Token → Except ParseError (Expr × List Token)
  | 0, _ => .error .outOfFuel
  | fuel + 1, toks =>
    match comparison fuel toks with
    | .error e => .error e
    | .ok (left, toks) =>
      match matchNext TokenType.bangEqual toks with
      | (true, toks) =>
        match comparison fuel toks with
        | .error e => .error e
        | .ok (right, toks) => .ok (Expr.binary left BinaryOp.notEqual right, toks)
      | (false, toks) =>
        match matchNext TokenType.equalEqual toks with
        | (true, toks) =>
          match comparison fuel toks with
          | .error e => .error e
          | .ok (right, toks) => .ok (Expr.binary left BinaryOp.equal right, toks)
        | (false, toks) => .ok (left, toks)

/-- `Parser::comparison`: at most one comparison operator (comparisons do not chain). -/
def comparison : Nat → List Token → Except ParseError (Expr × List Token)
  | 0, _ => .error .outOfFuel
  | fuel + 1, toks =>
    match term fuel toks with
    | .error e => .error e
    | .ok (left, toks) =>
      match matchNext TokenType.greater toks with
      | (true, toks) =>
        match term fuel toks with
        | .error e => .error e
        | .ok (right, toks) => .ok (Expr.binary left BinaryOp.greater right, toks)
      | (false, toks) =>
        match matchNext TokenType.greaterEqual toks with
        | (true, toks) =>
          match term fuel toks with
          | .error e => .error e
          | .ok (right, toks) => .ok (Expr.binary left BinaryOp.greaterEqual right, toks)
        | (false, toks) =>
          match matchNext TokenType.less toks with
          | (true, toks) =>
            match term fuel toks with
            | .error e => .error e
            | .ok (right, toks) => .ok (Expr.binary left BinaryOp.less right, toks)
          | (false, toks) =>
            match matchNext TokenType.lessEqual toks with
            | (true, toks) =>
              match term fuel toks with
              | .error e => .error e
              | .ok (right, toks) => .ok (Expr.binary left BinaryOp.lessEqual right, toks)
            | (false, toks) => .ok (left, toks)

/-- `Parser::term`: additive level, right recursion as in the source. -/
def term : Nat → List Token → Except ParseError (Expr × List Token)
  | 0, _ => .error .outOfFuel
  | fuel + 1, toks =>
    match factor fuel toks with
    | .error e => .error e
    | .ok (left, toks) =>
      match matchNext TokenType.minus toks with
      | (true, toks) =>
        match term fuel toks with
        | .error e => .error e
        | .ok (right, toks) => .ok (Expr.binary left BinaryOp.sub right, toks)
      | (false, toks) =>
        match matchNext TokenType.plus toks with
        | (true, toks) =>
          match term fuel toks with
          | .error e => .error e
          | .ok (right, toks) => .ok (Expr.binary left BinaryOp.add right, toks)
        | (false, toks) => .ok (left, toks)

/-- `Parser::factor`: multiplicative level, right recursion as in the source. -/
def factor : Nat → List Token → Except ParseError (Expr × List Token)
  | 0, _ => .error .outOfFuel
  | fuel + 1, toks =>
    match unaryExpr fuel toks with
    | .error e => .error e
    | .ok (left, toks) =>
      match matchNext TokenType.slash toks with
      | (true, toks) =>
        match factor fuel toks with
        | .error e => .error e
        | .ok (right, toks) => .ok (Expr.binary left BinaryOp.div right, toks)
      | (false, toks) =>
        match matchNext TokenType.star toks with
        | (true, toks) =>
          match factor fuel toks with
          | .error e => .error e
          | .ok (right, toks) => .ok (Expr.binary left BinaryOp.mult right, toks)
        | (false, toks) => .ok (left, toks)

/-- `Parser::unary`. -/
def unaryExpr : Nat → List Token → Except ParseError (Expr × List Token)
  | 0, _ => .error .outOfFuel
  | fuel + 1, toks =>
    match matchNext TokenType.bang toks with
    | (true, toks) =>
      match unaryExpr fuel toks with
      | .error e => .error e
      | .ok (right, toks) => .ok (Expr.unary UnaryOp.not right, toks)
    | (false, toks) =>
      match matchNext TokenType.minus toks with
      | (true, toks) =>
        match unaryExpr fuel toks with
        | .error e => .error e
        | .ok (right, toks) => .ok (Expr.unary UnaryOp.minus right, toks)
      | (false, toks) => callExpr fuel toks

/-- `Parser::call`: a primary followed by zero or more argument lists (left-recursive
via a loop, supporting chained calls). -/
def callExpr : Nat → List Token → Except ParseError (Expr × List Token)
  | 0, _ => .error .outOfFuel
  | fuel + 1, toks =>
    match primary fuel toks with
    | .error e => .error e
    | .ok (expr, toks) => callLoop fuel expr toks

def callLoop : Nat → Expr → List Token → Except ParseError (Expr × List Token)
  | 0, _, _ => .error .outOfFuel
  | fuel + 1, expr, toks =>
    match matchNext TokenType.leftParen toks with
    | (true, toks) =>
      match finishCall fuel expr toks with
      | .error e => .error e
      | .ok (expr, toks) => callLoop fuel expr toks
    | (false, toks) => .ok (expr, toks)

/-- `Parser::finish_call` (the `(` is already consumed). -/
def finishCall : Nat → Expr → List Token → Except ParseError (Expr × List Token)
  | 0, _, _ => .error .outOfFuel
  | fuel + 1, callee, toks =>
    match matchNext TokenType.rightParen toks with
    | (true, toks) => .ok (Expr.call callee [], toks)
    | (false, toks) =>
      match expression fuel toks with
      | .error e => .error e
      | .ok (arg, toks) => finishCallArgs fuel callee [arg] toks

/-- The `while let Some(comma) = self.advance_only(Comma)` argument loop of
`finish_call`, including the 255-argument cap checked at each comma, then the closing
parenthesis. -/
def finishCallArgs : Nat → Expr → List Expr → List Token →
    Except ParseError (Expr × List Token)
  | 0, _, _, _ => .error .outOfFuel
  | fuel + 1, callee, args, toks =>
    match advanceOnly TokenType.comma toks with
    | some (comma, toks) =>
      if 255 ≤ args.length then .error (ParseError.tooManyArguments comma.line)
      else
        match expression fuel toks with
        | .error e => .error e
        | .ok (arg, toks) => finishCallArgs fuel callee (args ++ [arg]) toks
    | none =>
      match consume TokenType.rightParen toks with
      | .error e => .error e
      | .ok (_, toks) => .ok (Expr.call callee args, toks)

/-- `Parser::primary`. -/
def primary : Nat → List Token → Except ParseError (Expr × List Token)
  | 0, _ => .error .outOfFuel
  | fuel + 1, toks =>
    match advanceExpect "primary expression"
        (fun t => [TokenType.nil, TokenType.false_, TokenType.true_, TokenType.number,
          TokenType.string_, TokenType.identifier, TokenType.leftParen].contains t.typ)
        toks with
    | .error e => .error e
    | .ok (token, toks) =>
      match token.typ with
      | TokenType.nil => .ok (Expr.literal Literal.nil, toks)
      | TokenType.false_ => .ok (Expr.literal (Literal.bool false), toks)
      | TokenType.true_ => .ok (Expr.literal (Literal.bool true), toks)
      | TokenType.number =>
        .ok (Expr.literal (Literal.number (parseNumberLexeme token.lexeme)), toks)
      | TokenType.string_ => .ok (Expr.literal (Literal.string_ token.lexeme), toks)
      | TokenType.leftParen =>
        match expression fuel toks with
        | .error e => .error e
        | .ok (expr, toks) =>
          match consume TokenType.rightParen toks with
          | .error e => .error e
          | .ok (_, toks) => .ok (Expr.grouping expr, toks)
      | TokenType.identifier => .ok (Expr.variable_ token.lexeme, toks)
      | _ => .error (ParseError.wrongToken token "expression")

end

/-- Fuel that is ample for every token stream considered in this file (the parser's
recursion depth is linearly bounded by the input length). -/
def fuelFor (toks : List Token) : Nat :=
  40 * toks.length + 40

/-- `Parser::parse` with the standard fuel. -/
def parse (toks : List Token) : Except ParseError (List Stmt × List Token) :=
  parseLoop (fuelFor toks) toks

/-- `Parser::declaration` as entered from the outside (the Rust unit tests drive it
directly), with the standard fuel. -/
def parseDecl (toks : List Token) : Except ParseError (Stmt × List Token) :=
  declaration (fuelFor toks) toks

end Parser

/-!  `src/analysis/resolver.rs`. -/

namespace Resolver

/-- `Resolver` state: the scope stack (Rust `Vec<HashMap<String, bool>>`, last entry
innermost) plus the sequence of `self.interpreter.resolve(name, idx)` calls it has
made, in order.  (The `Interpreter` of the checked-in snapshot has no `resolve`
method; the recorded pairs model exactly what the resolver hands over.) -/
structure State where
  scopes : List (List (String × Bool))
  resolutions : List (String × Nat)
deriving Repr

/-- Update the last element of a list, if any (`Vec::last_mut`). -/
def modifyLast {α : Type} (f : α → α) : List α → List α
  | [] => []
  | [x] => [f x]
  | x :: rest => x :: modifyLast f rest

/-- `Resolver::begin_scope`. -/
def beginScope (st : State) : State :=
  { st with scopes := st.scopes ++ [[]] }

/-- `Resolver::end_scope` (`Vec::pop`). -/
def endScope (st : State) : State :=
  { st with scopes := st.scopes.dropLast }

/-- `Resolver::declare`: mark the name not-yet-initialized in the innermost scope; a
no-op when the scope stack is empty (`last_mut` returns `None` at the top level). -/
def declare (st : State) (name : String) : State :=
  { st with scopes := modifyLast (fun sc => mapInsert sc name false) st.scopes }

/-- `Resolver::define`: flip the name to fully-defined in the innermost scope; again a
no-op when the scope stack is empty. -/
def define_ (st : State) (name : String) : State :=
  { st with scopes := modifyLast (fun sc => mapInsert sc name true) st.scopes }

/-- The absolute index (counted from the bottom/outermost end of the scope stack, as
`iter().enumerate()` does) of the scope found by walking `rev()` from the innermost
end — i.e. the largest index whose scope contains the name. -/
def lastIdxContaining : List (List (String × Bool)) → String → Option Nat
  | [], _ => none
  | sc :: rest, name =>
    match lastIdxContaining rest name with
    | some i => some (i + 1)
    | none => if mapContains sc name then some 0 else none

/-- `Resolver::resolve_local`: the self-initialization check against the innermost
scope, then the `enumerate().rev()` walk recording the first hit's `enumerate` index;
a name in no scope records nothing. -/
def resolveLocal (st : State) (name : String) : Except ParseError State :=
  if (st.scopes.getLast?.bind (fun sc => mapGet sc name)) = some false then
    .error (ParseError.selfInitializedVar name)
  else
    match lastIdxContaining st.scopes name with
    | some idx => .ok { st with resolutions := st.resolutions ++ [(name, idx)] }
    | none => .ok st

mutual

/-- `Resolver::resolve_expr`. -/
def resolveExpr : State → Expr → Except ParseError State
  | st, .unary _ right => resolveExpr st right
  | st, .binary left _ right =>
    match resolveExpr st left with
    | .error e => .error e
    | .ok st => resolveExpr st right
  | st, .logical left _ right =>
    match resolveExpr st left with
    | .error e => .error e
    | .ok st => resolveExpr st right
  | st, .grouping e => resolveExpr st e
  | st, .literal _ => .ok st
  | st, .variable_ name => resolveLocal st name
  | st, .assign name expr =>
    match resolveExpr st expr with
    | .error e => .error e
    | .ok st => resolveLocal st name
  | st, .call callee args =>
    match resolveExpr st callee with
    | .error e => .error e
    | .ok st => resolveExprs st args

def resolveExprs : State → List Expr → Except ParseError State
  | st, [] => .ok st
  | st, e :: rest =>
    match resolveExpr st e with
    | .error err => .error err
    | .ok st => resolveExprs st rest

/-- `Resolver::resolve_stmt`. -/
def resolveStmt : State → Stmt → Except ParseError State
  | st, .expression e => resolveExpr st e
  | st, .print e => resolveExpr st e
  | st, .return_ (some e) => resolveExpr st e
  | st, .return_ none => .ok st
  | st, .if_ condition thenBranch elseBranch =>
    match resolveExpr st condition with
    | .error e => .error e
    | .ok st =>
      match resolveStmt st thenBranch with
      | .error e => .error e
      | .ok st =>
        match elseBranch with
        | some els => resolveStmt st els
        | none => .ok st
  | st, .var name initializer =>
    let st := declare st name
    match initializer with
    | some init =>
      match resolveExpr st init with
      | .error e => .error e
      | .ok st => .ok (define_ st name)
    | none => .ok (define_ st name)
  | st, .function_ name params body =>
    let st := define_ (declare st name) name
    let st := beginScope st
    let st := params.foldl (fun st p => define_ (declare st p) p) st
    match resolveStmts st body with
    | .error e => .error e
    | .ok st => .ok (endScope st)
  | st, .block blockStmts =>
    let st := beginScope st
    match resolveStmts st blockStmts with
    | .error e => .error e
    | .ok st => .ok (endScope st)
  | st, .while_ condition body =>
    match resolveExpr st condition with
    | .error e => .error e
    | .ok st => resolveStmt st body

def resolveStmts : State → List Stmt → Except ParseError State
  | st, [] => .ok st
  | st, s :: rest =>
    match resolveStmt st s with
    | .error e => .error e
    | .ok st => resolveStmts st rest

end

/-- A fresh `Resolver` (`Resolver::new`: empty scope stack) run over a program's
statements. -/
def resolveProgram (stmts : List Stmt) : Except ParseError State :=
  resolveStmts { scopes := [], resolutions := [] } stmts

end Resolver

/-!  AST equality, mirroring the Rust `#[derive(PartialEq)]` on `Expr`/`Stmt`
(structural equality; Lean cannot derive `DecidableEq` for these nested inductives,
so the Boolean equality is written out). -/

mutual

def Expr.beq : Expr → Expr → Bool
  | .unary o1 r1, .unary o2 r2 => o1 = o2 && Expr.beq r1 r2
  | .binary l1 o1 r1, .binary l2 o2 r2 => Expr.beq l1 l2 && o1 = o2 && Expr.beq r1 r2
  | .grouping e1, .grouping e2 => Expr.beq e1 e2
  | .literal a, .literal b => a = b
  | .variable_ n1, .variable_ n2 => n1 = n2
  | .assign n1 e1, .assign n2 e2 => n1 = n2 && Expr.beq e1 e2
  | .logical l1 o1 r1, .logical l2 o2 r2 => Expr.beq l1 l2 && o1 = o2 && Expr.beq r1 r2
  | .call c1 a1, .call c2 a2 => Expr.beq c1 c2 && Expr.beqList a1 a2
  | _, _ => false

def Expr.beqList : List Expr → List Expr → Bool
  | [], [] => true
  | x :: xs, y :: ys => Expr.beq x y && Expr.beqList xs ys
  | _, _ => false

end

mutual

def Stmt.beq : Stmt → Stmt → Bool
  | .expression e1, .expression e2 => Expr.beq e1 e2
  | .if_ c1 t1 e1, .if_ c2 t2 e2 =>
    Expr.beq c1 c2 && Stmt.beq t1 t2 &&
      (match e1, e2 with
       | none, none => true
       | some s1, some s2 => Stmt.beq s1 s2
       | _, _ => false)
  | .print e1, .print e2 => Expr.beq e1 e2
  | .var n1 i1, .var n2 i2 =>
    n1 = n2 &&
      (match i1, i2 with
       | none, none => true
       | some e1, some e2 => Expr.beq e1 e2
       | _, _ => false)
  | .function_ n1 p1 b1, .function_ n2 p2 b2 => n1 = n2 && p1 = p2 && Stmt.beqList b1 b2
  | .block b1, .block b2 => Stmt.beqList b1 b2
  | .while_ c1 b1, .while_ c2 b2 => Expr.beq c1 c2 && Stmt.beq b1 b2
  | .return_ e1, .return_ e2 =>
    (match e1, e2 with
     | none, none => true
     | some x1, some x2 => Expr.beq x1 x2
     | _, _ => false)
  | _, _ => false

def Stmt.beqList : List Stmt → List Stmt → Bool
  | [], [] => true
  | x :: xs, y :: ys => Stmt.beq x y && Stmt.beqList xs ys
  | _, _ => false

end

/-!  `src/parse/function.rs`, `src/interpreter/value.rs`, `src/interpreter/error.rs`,
and the expression-level evaluators of `src/interpreter/interpreter.rs`. -/

/-- `LoxFunction`: a runtime function value (name, parameter names, body). -/
structure LoxFunction where
  name : String
  params : List String
  body : List Stmt
deriving Repr

/-- `LoxFunction::arity`. -/
def LoxFunction.arity (f : LoxFunction) : Nat :=
  f.params.length

/-- `Value`: runtime values (the `f64` payload again embedded as `ℚ`). -/
inductive Value where
  | nil
  | bool (b : Bool)
  | number (n : ℚ)
  | string_ (s : String)
  | function_ (f : LoxFunction)
deriving Repr

/-- The Rust `#[derive(PartialEq)]` equality on `LoxFunction`. -/
def LoxFunction.beq (f g : LoxFunction) : Bool :=
  f.name = g.name && f.params = g.params && Stmt.beqList f.body g.body

/-- The Rust `#[derive(PartialEq)]` equality on `Value` (used by the `==`/`!=` arms of
`Interpreter::binary`): structural, and `false` across constructors. -/
def Value.beq : Value → Value → Bool
  | .nil, .nil => true
  | .bool b1, .bool b2 => b1 = b2
  | .number n1, .number n2 => n1 = n2
  | .string_ s1, .string_ s2 => s1 = s2
  | .function_ f1, .function_ f2 => f1.beq f2
  | _, _ => false

/-- `Value::is_truthy`: `Nil` and `false` are falsy, everything else truthy. -/
def Value.isTruthy : Value → Bool
  | .nil => false
  | .bool b => b
  | _ => true

/-- `Value::of`: literals map 1:1 to values. -/
def Value.ofLiteral : Literal → Value
  | .nil => .nil
  | .bool b => .bool b
  | .number n => .number n
  | .string_ s => .string_ s

/-- `src/interpreter/error.rs`: runtime errors.  The `expected` text of `TypeError` is
built with `format!` from the `Debug` rendering of the operands in the source; that
rendering is abstracted to a fixed message here, and no claim inspects the text. -/
inductive RuntimeError where
  | typeError (expected : String)
  | unboundVar (name : String)
  | assigningGlobal (name : String)
  | definingGlobal (name : String)
  | arityMismatch (name : String) (arity : Nat) (numArgs : Nat)
  | callingNonCallable (value : Value)
  | return_ (value : Value)
deriving Repr

/-- `Interpreter::unary`. -/
def unary (op : UnaryOp) (value : Value) : Except RuntimeError Value :=
  match op, value with
  | .minus, .number num => .ok (.number (-num))
  | .not, val => .ok (.bool (!val.isTruthy))
  | _, _ => .error (.typeError "Can't combine operator and operand")

/-- `Interpreter::binary`, with the arms in source order: `==`/`!=` accept any pair and
use the derived structural equality; `*`, `/`, `+`, `-` and the four comparisons
require two `Number`s except that `+` also accepts two `String`s (concatenation); any
other combination is a type error. -/
def binary (leftVal : Value) (op : BinaryOp) (rightVal : Value) :
    Except RuntimeError Value :=
  match leftVal, op, rightVal with
  | left, .equal, right => .ok (.bool (left.beq right))
  | left, .notEqual, right => .ok (.bool (!left.beq right))
  | .number left, .mult, .number right => .ok (.number (left * right))
  | .number left, .div, .number right => .ok (.number (left / right))
  | .number left, .add, .number right => .ok (.number (left + right))
  | .number left, .sub, .number right => .ok (.number (left - right))
  | .string_ left, .add, .string_ right => .ok (.string_ (left ++ right))
  | .number left, .greater, .number right => .ok (.bool (decide (right < left)))
  | .number left, .greaterEqual, .number right => .ok (.bool (decide (right ≤ left)))
  | .number left, .less, .number right => .ok (.bool (decide (left < right)))
  | .number left, .lessEqual, .number right => .ok (.bool (decide (left ≤ right)))
  | _, _, _ => .error (.typeError "Can't combine operands with operator")

/-!  `src/interpreter/environment.rs`. -/

/-- The environment chain: a `Local` frame links to its enclosing environment and the
chain terminates at the `Global` frame (`Environment::Local` / `Environment::Global`). -/
inductive Env where
  | global (values : List (String × Value))
  | local_ (values : List (String × Value)) (enclosing : Env)

/-- `Environment::define`: always inserts into the *current* frame; the global frame
rejects definitions. -/
def Env.define_ : Env → String → Value → Except RuntimeError Env
  | .global _, name, _ => .error (.definingGlobal name)
  | .local_ values enclosing, name, value =>
    .ok (.local_ (mapInsert values name value) enclosing)

/-- `Environment::get`: search the current frame outward; unbound if no frame (and
finally the global frame) holds the name. -/
def Env.get : Env → String → Except RuntimeError Value
  | .global values, name =>
    match mapGet values name with
    | some v => .ok v
    | none => .error (.unboundVar name)
  | .local_ values enclosing, name =>
    match mapGet values name with
    | some v => .ok v
    | none => enclosing.get name

/-- `Environment::assign`: overwrite in the nearest local frame already containing the
name; reaching the global frame is an error — `AssigningGlobal` when the global frame
binds the name, `UnboundVar` otherwise. -/
def Env.assign : Env → String → Value → Except RuntimeError Env
  | .global values, name, _ =>
    if mapContains values name then .error (.assigningGlobal name)
    else .error (.unboundVar name)
  | .local_ values enclosing, name, value =>
    if mapContains values name then
      .ok (.local_ (mapInsert values name value) enclosing)
    else
      match enclosing.assign name value with
      | .error e => .error e
      | .ok enclosing' => .ok (.local_ values enclosing')

/-- The map of the global frame at the root of the chain. -/
def Env.globalsOf : Env → List (String × Value)
  | .global values => values
  | .local_ _ enclosing => enclosing.globalsOf

/-- Whether some *local* frame of the chain (excluding the global root) contains the
name. -/
def Env.localContains : Env → String → Bool
  | .global _, _ => false
  | .local_ values enclosing, name =>
    mapContains values name || enclosing.localContains name

/-- Whether any frame of the chain (global root included) contains the name. -/
def Env.chainContains : Env → String → Bool
  | .global values, name => mapContains values name
  | .local_ values enclosing, name =>
    mapContains values name || enclosing.chainContains name

/-- Modelled from the spec: the call dispatch of the Evaluator.  The checked-in
`interpreter.rs` is a stale snapshot with no `Expr::Call` arm (and `error.rs` only
declares the errors), so this follows §4.5 of the specification: "Calling a
non-Function value fails with a 'calling a non-callable value' error; calling a
Function with the wrong number of arguments fails with an arity-mismatch error naming
the function, its declared arity, and the count received."  On success it returns the
function and the positional arguments the call would proceed with. -/
def beginCall (callee : Value) (args : List Value) :
    Except RuntimeError (LoxFunction × List Value) :=
  match callee with
  | .function_ f =>
    if args.length = f.arity then .ok (f, args)
    else .error (.arityMismatch f.name f.arity args.length)
  | v => .error (.callingNonCallable v)

/-!  Helper lemmas about the association-list map. -/

theorem mapGet_insert_self {β : Type} (m : List (String × β)) (k : String) (v : β) :
    mapGet (mapInsert m k v) k = some v := by
  induction m with
  | nil => simp [mapInsert, mapGet]
  | cons kv rest ih =>
    obtain ⟨k', v'⟩ := kv
    by_cases h : k' = k
    · simp [mapInsert, h, mapGet]
    · simp [mapInsert, h, mapGet, ih]

theorem mapGet_insert_ne {β : Type} (m : List (String × β)) (k k2 : String) (v : β)
    (h : k2 ≠ k) : mapGet (mapInsert m k v) k2 = mapGet m k2 := by
  induction m with
  | nil => simp [mapInsert, mapGet, Ne.symm h]
  | cons kv rest ih =>
    obtain ⟨k', v'⟩ := kv
    by_cases hk : k' = k
    · subst hk
      simp [mapInsert, mapGet, Ne.symm h]
    · simp [mapInsert, mapGet, hk, ih]

theorem mapContains_insert {β : Type} (m : List (String × β)) (k k2 : String) (v : β) :
    mapContains (mapInsert m k v) k2 = if k2 = k then true else mapContains m k2 := by
  by_cases h : k2 = k
  · subst h
    simp [mapContains, mapGet_insert_self]
  · simp [mapContains, mapGet_insert_ne m k k2 v h, h]

/-!  Claims C1 and C4: the Resolver. -/

theorem Resolver.modifyLast_getLast {α : Type} (f : α → α) (l : List α) (h : l ≠ []) :
    ∃ x, l.getLast? = some x ∧ (Resolver.modifyLast f l).getLast? = some (f x) := by
  induction l with
  | nil => exact absurd rfl h
  | cons a rest ih =>
    cases rest with
    | nil => exact ⟨a, rfl, rfl⟩
    | cons b rest2 =>
      obtain ⟨x, h1, h2⟩ := ih (by simp)
      refine ⟨x, ?_, ?_⟩
      · rw [List.getLast?_cons_cons]
        exact h1
      · have e1 : Resolver.modifyLast f (a :: b :: rest2) =
            a :: Resolver.modifyLast f (b :: rest2) := rfl
        rw [e1]
        cases hm : Resolver.modifyLast f (b :: rest2) with
        | nil =>
          exfalso
          cases rest2 <;> simp [Resolver.modifyLast] at hm
        | cons c cs =>
          rw [hm] at h2
          rw [List.getLast?_cons_cons]
          exact h2

/-- The positional meaning of `lastIdxContaining`: a returned index points (from the
outermost end of the stack) at a scope containing the name, with no containing scope
at any larger (more inner) index; `none` means no scope contains the name. -/
theorem Resolver.lastIdxContaining_spec (scopes : List (List (String × Bool)))
    (name : String) :
    (∀ idx, Resolver.lastIdxContaining scopes name = some idx →
      idx < scopes.length ∧
      (∃ sc, scopes[idx]? = some sc ∧ mapContains sc name = true) ∧
      ∀ j sc, idx < j → scopes[j]? = some sc → mapContains sc name = false) ∧
    (Resolver.lastIdxContaining scopes name = none →
      ∀ sc ∈ scopes, mapContains sc name = false) := by
  induction scopes with
  | nil =>
    constructor
    · intro idx h; cases h
    · intro _ sc hsc; cases hsc
  | cons sc0 rest ih =>
    constructor
    · intro idx h
      unfold Resolver.lastIdxContaining at h
      cases hr : Resolver.lastIdxContaining rest name with
      | some i =>
        rw [hr] at h
        injection h with h
        subst h
        obtain ⟨l1, ⟨sc, hsc, hc⟩, l3⟩ := ih.1 i hr
        refine ⟨by simp; omega, ⟨sc, by simpa using hsc, hc⟩, ?_⟩
        intro j sc2 hj hget
        cases j with
        | zero => omega
        | succ j2 =>
          rw [List.getElem?_cons_succ] at hget
          exact l3 j2 sc2 (by omega) hget
      | none =>
        rw [hr] at h
        by_cases hc : mapContains sc0 name = true
        · rw [if_pos hc] at h
          injection h with h
          subst h
          refine ⟨by simp, ⟨sc0, by simp, hc⟩, ?_⟩
          intro j sc2 hj hget
          cases j with
          | zero => omega
          | succ j2 =>
            rw [List.getElem?_cons_succ] at hget
            have hmem : sc2 ∈ rest := by
              obtain ⟨hlt, heq⟩ := List.getElem?_eq_some.mp hget
              rw [← heq]
              exact List.getElem_mem hlt
            exact ih.2 hr sc2 hmem
        · rw [if_neg hc] at h
          cases h
    · intro h sc hsc
      unfold Resolver.lastIdxContaining at h
      cases hr : Resolver.lastIdxContaining rest name with
      | some i => rw [hr] at h; cases h
      | none =>
        rw [hr] at h
        by_cases hc : mapContains sc0 name = true
        · rw [if_pos hc] at h; cases h
        · rcases List.mem_cons.mp hsc with he | hm
          · subst he; simpa using hc
          · exact ih.2 hr sc hm

/-- **C1 (counterexample).**  The claim says the Resolver rejects `var x = x;` in
every scope, *including at the top level of a program*.  At the top level the
resolver's scope stack is empty, `declare` and the self-initialization check are
no-ops (`scopes.last_mut()` / `scopes.last()` return `None`), and a fresh resolver
accepts the program `var x = x;` outright, recording nothing. -/
theorem c1_counterexample_top_level_accepted :
    Resolver.resolveProgram [Stmt.var "x" (some (Expr.variable_ "x"))] =
      .ok { scopes := [], resolutions := [] } := by
  rfl

/-- **C1 (amended).**  Whenever the declaration occurs inside at least one enclosing
scope (a block or function body, i.e. the resolver's scope stack is non-empty),
resolving `var <name> = <name>;` fails with the self-initialization error — for every
state of the surrounding scopes.  Only the top level, where the scope stack is empty,
escapes the check. -/
theorem c1_self_init_rejected_in_enclosing_scope (st : Resolver.State) (name : String)
    (h : st.scopes ≠ []) :
    Resolver.resolveStmt st (Stmt.var name (some (Expr.variable_ name))) =
      .error (ParseError.selfInitializedVar name) := by
  obtain ⟨sc, hlast, hlast'⟩ :=
    Resolver.modifyLast_getLast (fun sc => mapInsert sc name false) st.scopes h
  have hguard : ((Resolver.declare st name).scopes.getLast?.bind
      (fun sc => mapGet sc name)) = some false := by
    unfold Resolver.declare
    dsimp only
    rw [hlast']
    simp [mapGet_insert_self]
  have hloc : Resolver.resolveLocal (Resolver.declare st name) name =
      .error (ParseError.selfInitializedVar name) := by
    unfold Resolver.resolveLocal
    rw [if_pos hguard]
  have hexp : Resolver.resolveExpr (Resolver.declare st name) (Expr.variable_ name) =
      Resolver.resolveLocal (Resolver.declare st name) name := rfl
  show (match Resolver.resolveExpr (Resolver.declare st name) (Expr.variable_ name) with
    | Except.error e => (Except.error e : Except ParseError Resolver.State)
    | Except.ok st2 => Except.ok (Resolver.define_ st2 name)) =
    Except.error (ParseError.selfInitializedVar name)
  rw [hexp, hloc]

/-- **C1 (witness).** -/
theorem c1_witness :
    Resolver.resolveStmt { scopes := [[]], resolutions := [] }
      (Stmt.var "x" (some (Expr.variable_ "x"))) =
      .error (ParseError.selfInitializedVar "x") :=
  c1_self_init_rejected_in_enclosing_scope { scopes := [[]], resolutions := [] } "x"
    (by decide)

/-- **C4 (counterexample).**  Two nested scopes both binding `"x"`, resolving a
reference to `"x"`: the reference sits *in* the innermost scope, so the claim ("0
meaning the innermost scope") requires distance `0`; `resolve_local` instead records
the `enumerate()` index `1`, which counts from the outermost end of the stack. -/
theorem c4_counterexample_records_absolute_index :
    Resolver.resolveLocal { scopes := [[("x", true)], [("x", true)]], resolutions := [] }
      "x" =
      .ok { scopes := [[("x", true)], [("x", true)]], resolutions := [("x", 1)] } ∧
    (("x", 1) : String × Nat) ≠ ("x", 0) := by
  constructor
  · rfl
  · decide

/-- **C4 (amended).**  When the self-initialization guard passes, `resolve_local`
walks the scope stack innermost → outermost and, at the first scope containing the
name, records the scope's *absolute index counted from the outermost end of the
stack* (`scopes.len() - 1` denotes the innermost scope, `0` the outermost) — not the
hop count from the innermost scope; the recorded index is the largest index whose
scope contains the name, and no containing scope lies at a larger index.  A name
found in no scope records nothing (left for dynamic global lookup). -/
theorem c4_resolution_records_outermost_based_index (st : Resolver.State) (name : String)
    (hguard : ¬ (st.scopes.getLast?.bind (fun sc => mapGet sc name) = some false)) :
    (∀ idx, Resolver.lastIdxContaining st.scopes name = some idx →
      Resolver.resolveLocal st name =
        .ok { st with resolutions := st.resolutions ++ [(name, idx)] } ∧
      idx < st.scopes.length ∧
      (∃ sc, st.scopes[idx]? = some sc ∧ mapContains sc name = true) ∧
      ∀ j sc, idx < j → st.scopes[j]? = some sc → mapContains sc name = false) ∧
    (Resolver.lastIdxContaining st.scopes name = none →
      Resolver.resolveLocal st name = .ok st ∧
      ∀ sc ∈ st.scopes, mapContains sc name = false) := by
  obtain ⟨hsome, hnone⟩ := Resolver.lastIdxContaining_spec st.scopes name
  constructor
  · intro idx h
    refine ⟨?_, hsome idx h⟩
    unfold Resolver.resolveLocal
    rw [if_neg hguard, h]
  · intro h
    refine ⟨?_, hnone h⟩
    unfold Resolver.resolveLocal
    rw [if_neg hguard, h]

/-- **C4 (witness).** -/
theorem c4_witness :
    Resolver.resolveLocal { scopes := [[("x", true)], [("x", true)]], resolutions := [] }
      "x" =
      .ok { scopes := [[("x", true)], [("x", true)]], resolutions := [("x", 1)] } :=
  ((c4_resolution_records_outermost_based_index
    { scopes := [[("x", true)], [("x", true)]], resolutions := [] } "x"
    (by decide)).1 1 (by decide)).1

/-!  Claims C3 and C10: the environment chain. -/

/-- A successful `assign` never changes the global frame at the root of the chain. -/
theorem Env.assign_ok_globalsOf (name : String) (v : Value) :
    ∀ (env env' : Env), env.assign name v = .ok env' →
      env'.globalsOf = env.globalsOf := by
  intro env
  induction env with
  | global values =>
    intro env' h
    unfold Env.assign at h
    by_cases hc : mapContains values name = true
    · rw [if_pos hc] at h; exact Except.noConfusion h
    · rw [if_neg hc] at h; exact Except.noConfusion h
  | local_ values enclosing ih =>
    intro env' h
    unfold Env.assign at h
    by_cases hc : mapContains values name = true
    · rw [if_pos hc] at h
      injection h with h
      subst h
      rfl
    · rw [if_neg hc] at h
      cases hr : enclosing.assign name v with
      | error e => rw [hr] at h; exact Except.noConfusion h
      | ok enc' =>
        rw [hr] at h
        injection h with h
        subst h
        show enc'.globalsOf = enclosing.globalsOf
        exact ih enc' hr

/-- When no *local* frame contains the name, `assign` walks to the global frame and
fails: `AssigningGlobal` when the global frame binds the name, `UnboundVar`
otherwise. -/
theorem Env.assign_not_local (name : String) (v : Value) :
    ∀ (env : Env), env.localContains name = false →
      env.assign name v = .error
        (if mapContains env.globalsOf name then RuntimeError.assigningGlobal name
         else RuntimeError.unboundVar name) := by
  intro env
  induction env with
  | global values =>
    intro _
    by_cases hc : mapContains values name = true <;>
      simp [Env.assign, Env.globalsOf, hc]
  | local_ values enclosing ih =>
    intro h
    simp only [Env.localContains, Bool.or_eq_false_iff] at h
    unfold Env.assign
    rw [if_neg (by simp [h.1]), ih h.2]
    rfl

/-- When some local frame contains the name, `assign` succeeds, overwrites the binding
in the nearest such frame, changes no other binding, binds exactly the names bound
before, and leaves the global frame untouched. -/
theorem Env.assign_local (name : String) (v : Value) :
    ∀ (env : Env), env.localContains name = true →
      ∃ env', env.assign name v = .ok env' ∧
        env'.get name = .ok v ∧
        (∀ m, m ≠ name → env'.get m = env.get m) ∧
        (∀ m, env'.chainContains m = env.chainContains m) ∧
        env'.globalsOf = env.globalsOf := by
  intro env
  induction env with
  | global values =>
    intro h
    simp [Env.localContains] at h
  | local_ values enclosing ih =>
    intro h
    by_cases hc : mapContains values name = true
    · refine ⟨.local_ (mapInsert values name v) enclosing, ?_, ?_, ?_, ?_, rfl⟩
      · unfold Env.assign
        rw [if_pos hc]
      · show Env.get (.local_ (mapInsert values name v) enclosing) name = .ok v
        unfold Env.get
        rw [mapGet_insert_self]
      · intro m hm
        show Env.get (.local_ (mapInsert values name v) enclosing) m =
          Env.get (.local_ values enclosing) m
        unfold Env.get
        rw [mapGet_insert_ne values name m v hm]
      · intro m
        show (mapContains (mapInsert values name v) m || Env.chainContains enclosing m) =
          (mapContains values m || Env.chainContains enclosing m)
        rw [mapContains_insert]
        by_cases hm : m = name
        · subst hm
          rw [if_pos rfl, hc]
        · rw [if_neg hm]
    · have h2 : enclosing.localContains name = true := by
        simp only [Env.localContains, Bool.or_eq_true] at h
        rcases h with h | h
        · exact absurd h hc
        · exact h
      obtain ⟨enc', ha, hg, hgm, hcc, hglob⟩ := ih h2
      have hvnone : mapGet values name = none := by
        cases hv : mapGet values name with
        | none => rfl
        | some w => exact absurd (by simp [mapContains, hv]) hc
      refine ⟨.local_ values enc', ?_, ?_, ?_, ?_, hglob⟩
      · unfold Env.assign
        rw [if_neg hc, ha]
      · show Env.get (.local_ values enc') name = .ok v
        unfold Env.get
        rw [hvnone]
        exact hg
      · intro m hm
        show Env.get (.local_ values enc') m = Env.get (.local_ values enclosing) m
        unfold Env.get
        cases hv : mapGet values m with
        | some w => rfl
        | none => exact hgm m hm
      · intro m
        show (mapContains values m || Env.chainContains enc' m) =
          (mapContains values m || Env.chainContains enclosing m)
        rw [hcc m]

/-- **C3 (counterexample).**  The claim says `assign` overwrites in the nearest frame
containing the name "*including the global frame*, and succeeds", failing only when
*no* frame binds the name.  In the code, reaching the global frame is *always* an
error: with a chain whose only binding of `"x"` sits in the global frame, `assign`
returns `AssigningGlobal` instead of succeeding. -/
theorem c3_counterexample_global_binding_not_assignable :
    Env.assign (Env.local_ [] (Env.global [("x", Value.nil)])) "x" (Value.bool true) =
      .error (RuntimeError.assigningGlobal "x") := by
  rfl

/-- **C3 (amended).**  `assign(name, value)` overwrites the binding in the nearest
*local* frame that already contains the name, searching from the current frame
outward but *excluding* the global frame, and succeeds without creating or removing
any binding and without touching the global frame; when no local frame contains the
name it fails — with `AssigningGlobal` when the global frame binds the name and
`UnboundVar` when no frame at all does.  In no case does `assign` create a new
binding. -/
theorem c3_assign_overwrites_nearest_local_never_global :
    (∀ (env : Env) (name : String) (v : Value), env.localContains name = true →
      ∃ env', env.assign name v = .ok env' ∧
        env'.get name = .ok v ∧
        (∀ m, m ≠ name → env'.get m = env.get m) ∧
        (∀ m, env'.chainContains m = env.chainContains m) ∧
        env'.globalsOf = env.globalsOf) ∧
    (∀ (env : Env) (name : String) (v : Value), env.localContains name = false →
      mapContains env.globalsOf name = true →
      env.assign name v = .error (RuntimeError.assigningGlobal name)) ∧
    (∀ (env : Env) (name : String) (v : Value), env.localContains name = false →
      mapContains env.globalsOf name = false →
      env.assign name v = .error (RuntimeError.unboundVar name)) := by
  refine ⟨fun env name v => Env.assign_local name v env, ?_, ?_⟩
  · intro env name v h hg
    rw [Env.assign_not_local name v env h, if_pos hg]
  · intro env name v h hg
    rw [Env.assign_not_local name v env h, if_neg (by simp [hg])]

/-- **C3 (witness).** -/
theorem c3_witness :
    (∃ env', Env.assign (Env.local_ [("y", Value.nil)] (Env.global [])) "y"
        (Value.bool true) = .ok env' ∧
      env'.get "y" = .ok (Value.bool true) ∧
      (∀ m, m ≠ "y" →
        env'.get m = (Env.local_ [("y", Value.nil)] (Env.global [])).get m) ∧
      (∀ m, env'.chainContains m =
        (Env.local_ [("y", Value.nil)] (Env.global [])).chainContains m) ∧
      env'.globalsOf = (Env.local_ [("y", Value.nil)] (Env.global [])).globalsOf) ∧
    Env.assign (Env.local_ [] (Env.global [("g", Value.nil)])) "g" Value.nil =
      .error (RuntimeError.assigningGlobal "g") ∧
    Env.assign (Env.local_ [] (Env.global [])) "z" Value.nil =
      .error (RuntimeError.unboundVar "z") :=
  ⟨c3_assign_overwrites_nearest_local_never_global.1
      (Env.local_ [("y", Value.nil)] (Env.global [])) "y" (Value.bool true) (by decide),
   c3_assign_overwrites_nearest_local_never_global.2.1
      (Env.local_ [] (Env.global [("g", Value.nil)])) "g" Value.nil
      (by decide) (by decide),
   c3_assign_overwrites_nearest_local_never_global.2.2
      (Env.local_ [] (Env.global [])) "z" Value.nil (by decide) (by decide)⟩

/-- **C10.**  The global frame is never mutated: `define` with the global frame as
current frame is rejected with `DefiningGlobal`; every *successful* `define` or
`assign` leaves the global map unchanged; and `assign` reaching the global frame
(no local frame binds the name) fails with `AssigningGlobal` when the name is bound
there and `UnboundVar` otherwise, instead of overwriting.  (`get` returns a value and
no environment, so it cannot mutate anything in this embedding.) -/
theorem c10_global_frame_never_mutated :
    (∀ (m : List (String × Value)) (name : String) (v : Value),
      Env.define_ (Env.global m) name v =
        .error (RuntimeError.definingGlobal name)) ∧
    (∀ (env : Env) (name : String) (v : Value) (env' : Env),
      Env.define_ env name v = .ok env' → env'.globalsOf = env.globalsOf) ∧
    (∀ (env : Env) (name : String) (v : Value) (env' : Env),
      Env.assign env name v = .ok env' → env'.globalsOf = env.globalsOf) ∧
    (∀ (env : Env) (name : String) (v : Value), env.localContains name = false →
      env.assign name v = .error
        (if mapContains env.globalsOf name then RuntimeError.assigningGlobal name
         else RuntimeError.unboundVar name)) := by
  refine ⟨fun _ _ _ => rfl, ?_, ?_, ?_⟩
  · intro env name v env' h
    cases env with
    | global m2 => exact Except.noConfusion h
    | local_ values enc =>
      injection h with h
      subst h
      rfl
  · intro env name v env' h
    exact Env.assign_ok_globalsOf name v env env' h
  · intro env name v h
    exact Env.assign_not_local name v env h

/-- **C10 (witness).** -/
theorem c10_witness :
    Env.define_ (Env.global [("a", Value.nil)]) "b" Value.nil =
      .error (RuntimeError.definingGlobal "b") ∧
    Env.globalsOf (Env.local_ [("b", Value.nil)] (Env.global [("a", Value.nil)])) =
      Env.globalsOf (Env.local_ [] (Env.global [("a", Value.nil)])) ∧
    Env.globalsOf (Env.local_ [("y", Value.bool true)] (Env.global [("a", Value.nil)])) =
      Env.globalsOf (Env.local_ [("y", Value.nil)] (Env.global [("a", Value.nil)])) ∧
    Env.assign (Env.local_ [] (Env.global [("a", Value.nil)])) "a" Value.nil =
      .error (if mapContains
          (Env.globalsOf (Env.local_ [] (Env.global [("a", Value.nil)]))) "a"
        then RuntimeError.assigningGlobal "a" else RuntimeError.unboundVar "a") :=
  ⟨c10_global_frame_never_mutated.1 [("a", Value.nil)] "b" Value.nil,
   c10_global_frame_never_mutated.2.1 (Env.local_ [] (Env.global [("a", Value.nil)]))
     "b" Value.nil (Env.local_ [("b", Value.nil)] (Env.global [("a", Value.nil)])) rfl,
   c10_global_frame_never_mutated.2.2.1
     (Env.local_ [("y", Value.nil)] (Env.global [("a", Value.nil)])) "y"
     (Value.bool true)
     (Env.local_ [("y", Value.bool true)] (Env.global [("a", Value.nil)])) rfl,
   c10_global_frame_never_mutated.2.2.2 (Env.local_ [] (Env.global [("a", Value.nil)]))
     "a" Value.nil (by decide)⟩

/-!  Claims C5 and C8: the evaluator's call dispatch and binary operators. -/

/-- Kind (constructor) discriminator on runtime values, for stating that `==`/`!=`
compare cross-kind pairs as simply unequal. -/
def Value.sameKind : Value → Value → Bool
  | .nil, .nil => true
  | .bool _, .bool _ => true
  | .number _, .number _ => true
  | .string_ _, .string_ _ => true
  | .function_ _, .function_ _ => true
  | _, _ => false

/-- **C5.**  Call dispatch: a non-`Function` callee fails with the
calling-a-non-callable error carrying the offending value; a `Function` callee whose
declared arity differs from the number of supplied arguments fails with an
arity-mismatch error naming the function, its declared arity, and the count received;
a `Function` callee with matching arity proceeds with the function and the arguments.
(The checked-in `interpreter.rs` has no `Expr::Call` arm, so `beginCall` is modelled
from the specification's call-dispatch clause.) -/
theorem c5_call_dispatch :
    (∀ (callee : Value) (args : List Value), (∀ f, callee ≠ .function_ f) →
      beginCall callee args = .error (RuntimeError.callingNonCallable callee)) ∧
    (∀ (f : LoxFunction) (args : List Value), args.length ≠ f.arity →
      beginCall (.function_ f) args =
        .error (RuntimeError.arityMismatch f.name f.arity args.length)) ∧
    (∀ (f : LoxFunction) (args : List Value), args.length = f.arity →
      beginCall (.function_ f) args = .ok (f, args)) := by
  refine ⟨?_, ?_, ?_⟩
  · intro callee args h
    cases callee with
    | function_ f => exact absurd rfl (h f)
    | nil => rfl
    | bool b => rfl
    | number n => rfl
    | string_ s => rfl
  · intro f args h
    show (if args.length = f.arity
        then (Except.ok (f, args) : Except RuntimeError (LoxFunction × List Value))
        else Except.error (RuntimeError.arityMismatch f.name f.arity args.length)) =
      Except.error (RuntimeError.arityMismatch f.name f.arity args.length)
    rw [if_neg h]
  · intro f args h
    show (if args.length = f.arity
        then (Except.ok (f, args) : Except RuntimeError (LoxFunction × List Value))
        else Except.error (RuntimeError.arityMismatch f.name f.arity args.length)) =
      Except.ok (f, args)
    rw [if_pos h]

/-- **C5 (witness).**  In particular a zero-parameter function called with one
argument fails with `ArityMismatch ("f", 0, 1)`. -/
theorem c5_witness :
    beginCall (Value.bool true) [] =
      .error (RuntimeError.callingNonCallable (Value.bool true)) ∧
    beginCall (Value.function_ ⟨"f", [], []⟩) [Value.nil] =
      .error (RuntimeError.arityMismatch "f" 0 1) ∧
    beginCall (Value.function_ ⟨"f", [], []⟩) [] = .ok (⟨"f", [], []⟩, []) :=
  ⟨c5_call_dispatch.1 (Value.bool true) [] (fun f h => Value.noConfusion h),
   c5_call_dispatch.2.1 ⟨"f", [], []⟩ [Value.nil] (by decide),
   c5_call_dispatch.2.2 ⟨"f", [], []⟩ [] rfl⟩

/-- **C8.**  Binary operator typing: the arithmetic and comparison operators compute
on two `Number`s; `+` additionally concatenates two `String`s; an `Ok` result of any
operator other than `==`/`!=` forces the operands to be two `Number`s (or, for `+`,
two `String`s); `==`/`!=` accept *every* pair of values and compare structurally,
with cross-kind pairs simply unequal rather than an error; in particular `1 + false`
is a type error and `"a" + "b"` is the string `"ab"`. -/
theorem c8_binary_typing :
    (∀ (l r : ℚ),
      binary (.number l) .mult (.number r) = .ok (.number (l * r)) ∧
      binary (.number l) .div (.number r) = .ok (.number (l / r)) ∧
      binary (.number l) .add (.number r) = .ok (.number (l + r)) ∧
      binary (.number l) .sub (.number r) = .ok (.number (l - r)) ∧
      binary (.number l) .greater (.number r) = .ok (.bool (decide (r < l))) ∧
      binary (.number l) .greaterEqual (.number r) = .ok (.bool (decide (r ≤ l))) ∧
      binary (.number l) .less (.number r) = .ok (.bool (decide (l < r))) ∧
      binary (.number l) .lessEqual (.number r) = .ok (.bool (decide (l ≤ r)))) ∧
    (∀ (a b : String),
      binary (.string_ a) .add (.string_ b) = .ok (.string_ (a ++ b))) ∧
    (∀ (op : BinaryOp) (l r : Value), op ≠ .equal → op ≠ .notEqual →
      (∃ v, binary l op r = .ok v) →
      (∃ nl nr, l = .number nl ∧ r = .number nr) ∨
      (op = .add ∧ ∃ sl sr, l = .string_ sl ∧ r = .string_ sr)) ∧
    (∀ (l r : Value),
      binary l .equal r = .ok (.bool (l.beq r)) ∧
      binary l .notEqual r = .ok (.bool (!l.beq r))) ∧
    (∀ (l r : Value), Value.sameKind l r = false → l.beq r = false) ∧
    (∃ msg, binary (.number 1) .add (.bool false) =
      .error (RuntimeError.typeError msg)) ∧
    binary (.string_ "a") .add (.string_ "b") = .ok (.string_ "ab") := by
  refine ⟨?_, ?_, ?_, ?_, ?_, ?_, ?_⟩
  · intro l r
    exact ⟨rfl, rfl, rfl, rfl, rfl, rfl, rfl, rfl⟩
  · intro a b
    rfl
  · intro op l r hne1 hne2 hok
    obtain ⟨v, hv⟩ := hok
    cases op <;> cases l <;> cases r <;>
      first
        | exact absurd rfl hne1
        | exact absurd rfl hne2
        | exact Except.noConfusion hv
        | exact Or.inl ⟨_, _, rfl, rfl⟩
        | exact Or.inr ⟨rfl, _, _, rfl, rfl⟩
  · intro l r
    constructor <;> (cases l <;> cases r <;> rfl)
  · intro l r h
    cases l <;> cases r <;> first | rfl | exact Bool.noConfusion h
  · exact ⟨"Can't combine operands with operator", rfl⟩
  · rfl

/-- **C8 (witness).** -/
theorem c8_witness :
    ((∃ nl nr, (Value.number 1 : Value) = .number nl ∧
        (Value.number 2 : Value) = .number nr) ∨
      (BinaryOp.mult = BinaryOp.add ∧
        ∃ sl sr, (Value.number 1 : Value) = .string_ sl ∧
          (Value.number 2 : Value) = .string_ sr)) ∧
    Value.beq (Value.number 1) (Value.bool true) = false :=
  ⟨c8_binary_typing.2.2.1 BinaryOp.mult (Value.number 1) (Value.number 2)
      (by decide) (by decide) ⟨Value.number (1 * 2), rfl⟩,
   c8_binary_typing.2.2.2.2.1 (Value.number 1) (Value.bool true) rfl⟩

/-!  Claims C2 and C9: the lexer's output stream. -/

/-- `scan_token` on input whose remainder is all whitespace: `skip_whitespace` drains
the input (bumping the line counter once per newline) and the scan reports end of
input. -/
theorem Scanner.scanToken_wsOnly (s0 : Scanner)
    (hall : ∀ c ∈ s0.source.drop s0.pos, isWsChar c = true)
    (hle : s0.pos ≤ s0.source.length) :
    ∃ s1 : Scanner, s0.scanToken = .ok (none, s1) ∧
      s1.line = s0.line + (s0.source.drop s0.pos).countP (fun c => c = '\n') := by
  obtain ⟨hpos, hline⟩ := Scanner.advanceWhile_consumeAll s0 isWsChar hall hle
  obtain ⟨w1, _, _, _⟩ := Scanner.advanceWhile_spec s0 isWsChar
  refine ⟨{ s0.skipWhitespace with start := (s0.skipWhitespace).pos }, ?_, ?_⟩
  · unfold Scanner.scanToken
    dsimp only
    have hadv : ({ s0.skipWhitespace with
        start := (s0.skipWhitespace).pos } : Scanner).advance = none := by
      unfold Scanner.advance
      have hg : ({ s0.skipWhitespace with
          start := (s0.skipWhitespace).pos } : Scanner).source[({ s0.skipWhitespace with
          start := (s0.skipWhitespace).pos } : Scanner).pos]? = none := by
        show (s0.skipWhitespace).source[(s0.skipWhitespace).pos]? = none
        have hw1 : (s0.skipWhitespace).source = s0.source := w1
        have hp1 : (s0.skipWhitespace).pos = s0.source.length := hpos
        rw [hw1, hp1]
        simp
      rw [hg]
    rw [hadv]
  · show (s0.skipWhitespace).line = _
    exact hline

/-- **C2 (counterexample).**  The claim says `//`-comments "are skipped and never
appear as tokens"; in fact the scanner's `/` arm *emits* a `Comment` token whose
lexeme runs to the end of the line, so the stream for `//x` is `[Comment, Eof]` and
contains a comment token. -/
theorem c2_counterexample_comment_token_emitted :
    (tokensOf ['/', '/', 'x']).map Token.typ = [TokenType.comment, TokenType.eof] ∧
    TokenType.comment ∈ (tokensOf ['/', '/', 'x']).map Token.typ := by
  constructor
  · decide
  · decide

/-- **C2 (amended).**  Whitespace (space, tab, CR, LF) is genuinely skipped: a source
of nothing but whitespace lexes to the single `Eof` token (at line `1 +` the number of
newlines), with no whitespace token ever emitted.  `//`-comments however are *not*
skipped: the scanner emits a `Comment` token for them (here `//x\n42` lexes to
`[Comment, Number, Eof]`). -/
theorem c2_whitespace_skipped_but_comments_tokenized (src : List Char)
    (hws : ∀ c ∈ src, isWsChar c = true) :
    lexTokens src =
      .ok [{ line := 1 + src.countP (fun c => c = '\n'), typ := TokenType.eof,
             lexeme := "" }] ∧
    (tokensOf ['/', '/', 'x', '\n', '4', '2']).map Token.typ =
      [TokenType.comment, TokenType.number, TokenType.eof] := by
  refine ⟨?_, by decide⟩
  obtain ⟨s1, hscan, hline⟩ := Scanner.scanToken_wsOnly (Scanner.init src)
    (by intro c hc; exact hws c (by simpa using hc)) (Nat.zero_le _)
  show (scanInit src).run = _
  rw [ScanIter.run_eq]
  have hnext : (scanInit src).next =
      .ok (some (({ line := s1.line, typ := TokenType.eof, lexeme := "" } : Token),
        (⟨s1, true⟩ : ScanIter))) := by
    unfold ScanIter.next
    have hflag : (scanInit src).eofFlag = false := rfl
    rw [hflag, if_neg (by simp)]
    show (match (Scanner.init src).scanToken with
      | Except.error m => (Except.error m : Except String (Option (Token × ScanIter)))
      | Except.ok (some t, s') => Except.ok (some (t, ⟨s', false⟩))
      | Except.ok (none, s1') =>
        Except.ok (some ({ line := s1'.line, typ := TokenType.eof, lexeme := "" },
          ⟨s1', true⟩))) = _
    rw [hscan]
  rw [hnext]
  dsimp only
  rw [ScanIter.run_eofFlag (show (⟨s1, true⟩ : ScanIter).eofFlag = true from rfl)]
  show Except.ok [({ line := s1.line, typ := TokenType.eof, lexeme := "" } : Token)] = _
  rw [hline]
  rfl

/-- **C2 (witness).** -/
theorem c2_witness :
    lexTokens [' ', '\n', '\t'] =
      .ok [{ line := 1 + [' ', '\n', '\t'].countP (fun c => c = '\n'),
             typ := TokenType.eof, lexeme := "" }] :=
  (c2_whitespace_skipped_but_comments_tokenized [' ', '\n', '\t'] (by decide)).1

/-- **C9.**  Totality of the lexer: `scan_token` never reaches the `panic!` branch
(embedded as `.error`), so lexing any input — malformed ones included — yields a
finite token list ending in exactly one `Eof` token (empty lexeme) with no `Eof`
anywhere before it; once the iterator has emitted `Eof` it yields nothing further;
and the malformed inputs get dedicated error-kind tokens: an unterminated string
lexes to `ErrorUnclosedString`, a number whose decimal point is not followed by a
digit to `ErrorMalformedNumber`, and an unknown character to `ErrorUnknownToken`. -/
theorem c9_lexer_never_panics_single_eof :
    (∀ (s : Scanner) (m : String), s.scanToken ≠ .error m) ∧
    (∀ src : List Char, ∃ body ln,
      lexTokens src =
        .ok (body ++ [{ line := ln, typ := TokenType.eof, lexeme := "" }]) ∧
      ∀ t ∈ body, t.typ ≠ TokenType.eof) ∧
    (∀ it : ScanIter, it.eofFlag = true → it.next = .ok none) ∧
    (tokensOf ['"', 'a']).map Token.typ =
      [TokenType.errorUnclosedString, TokenType.eof] ∧
    (tokensOf ['1', '.', 'x']).map Token.typ =
      [TokenType.errorMalformedNumber, TokenType.identifier, TokenType.eof] ∧
    (tokensOf ['@']).map Token.typ = [TokenType.errorUnknownToken, TokenType.eof] := by
  refine ⟨?_, ?_, ?_, by decide, by decide, by decide⟩
  · intro s m
    exact (Scanner.scanToken_spec s).2 m
  · intro src
    exact ScanIter.run_spec (scanInit src) rfl
  · intro it h
    simp [ScanIter.next, h]

/-- **C9 (witness).** -/
theorem c9_witness :
    ScanIter.next ⟨Scanner.init [], true⟩ = .ok none :=
  c9_lexer_never_panics_single_eof.2.2.1 ⟨Scanner.init [], true⟩ rfl

/-!  Claims C6 and C7: the parser's argument cap and non-chaining comparisons. -/

/-- The argument tail `, 1, 1, ..., 1 ) ; <eof>` with `n` further arguments; the comma
before the `i`-th further argument carries line number `i`, so the last comma of
`argTail 1 n` is at line `n`. -/
def argTail : Nat → Nat → List Token
  | _, 0 => [⟨0, .rightParen, ")"⟩, ⟨0, .semicolon, ";"⟩, ⟨0, .eof, ""⟩]
  | k, n+1 => ⟨k, .comma, ","⟩ :: ⟨k, .number, "1"⟩ :: argTail (k+1) n

/-- The token stream of the statement `f(1, 1, ..., 1);` with `n` arguments
(`n - 1` commas, the `i`-th comma at line `i`). -/
def callToks (n : Nat) : List Token :=
  ⟨0, .identifier, "f"⟩ :: ⟨0, .leftParen, "("⟩ :: ⟨0, .number, "1"⟩ :: argTail 1 (n - 1)

/-- The parameter tail `, p, ..., p ) <lbrace> <rbrace> <eof>` with `n` further
parameters; the comma before the `i`-th further parameter carries line number `i`. -/
def paramTail : Nat → Nat → List Token
  | _, 0 => [⟨0, .rightParen, ")"⟩, ⟨0, .leftBrace, "\x7b"⟩, ⟨0, .rightBrace, "\x7d"⟩,
             ⟨0, .eof, ""⟩]
  | k, n+1 => ⟨k, .comma, ","⟩ :: ⟨k, .identifier, "p"⟩ :: paramTail (k+1) n

/-- The token stream of a declaration of `f` with `n` parameters and an empty body
(`n - 1` commas, the `i`-th comma at line `i`). -/
def funToks (n : Nat) : List Token :=
  ⟨0, .fun_, "fun"⟩ :: ⟨0, .identifier, "f"⟩ :: ⟨0, .leftParen, "("⟩ ::
    ⟨0, .identifier, "p"⟩ :: paramTail 1 (n - 1)

/-- An expression that is a single number literal immediately followed by a comma or
closing parenthesis parses to that literal and stops before the delimiter: no binary,
logical, assignment or call production fires on `,` or `)`. -/
theorem Parser.expression_number_stop (g : Nat) (hg : 21 ≤ g) (k : Nat) (lx : String)
    (t : Token) (rest : List Token)
    (ht : t.typ = TokenType.comma ∨ t.typ = TokenType.rightParen) :
    Parser.expression g (⟨k, .number, lx⟩ :: t :: rest) =
      .ok (Expr.literal (Literal.number (parseNumberLexeme lx)), t :: rest) := by
  obtain ⟨g', rfl⟩ : ∃ g', g = g' + 20 := ⟨g - 20, by omega⟩
  rcases ht with ht | ht <;>
    simp [Parser.expression, Parser.assignment, Parser.orExpr, Parser.orLoop,
      Parser.andExpr, Parser.andLoop, Parser.equality, Parser.comparison, Parser.term,
      Parser.factor, Parser.unaryExpr, Parser.callExpr, Parser.callLoop,
      Parser.primary, Parser.finishCall, Parser.advanceExpect, Parser.advanceAnyOf,
      Parser.advanceOnly, Parser.matchNext, Parser.consume, Parser.isDone,
      ParseError.wrongToken, ParseError.atEnd, TokenType.debugName, ht]

/-- The head token of an argument tail is a comma (more arguments follow) or the
closing parenthesis. -/
theorem argTail_head (k n : Nat) : ∃ t rest, argTail k n = t :: rest ∧
    (t.typ = TokenType.comma ∨ t.typ = TokenType.rightParen) := by
  cases n with
  | zero => exact ⟨_, _, rfl, Or.inr rfl⟩
  | succ m => exact ⟨_, _, rfl, Or.inl rfl⟩

/-- The argument loop over `argTail k n` when the cap is never hit
(`args.length + n ≤ 255`): all `n` further arguments are consumed and the `Call` node
is built, leaving the `; <eof>` tail. -/
theorem Parser.finishCallArgs_argTail_ok (n : Nat) : ∀ (f k : Nat) (callee : Expr)
    (args : List Expr), args.length + n ≤ 255 → 22 + n ≤ f →
    Parser.finishCallArgs f callee args (argTail k n) =
      .ok (Expr.call callee (args ++
          List.replicate n (Expr.literal (Literal.number (parseNumberLexeme "1")))),
        [⟨0, .semicolon, ";"⟩, ⟨0, .eof, ""⟩]) := by
  induction n with
  | zero =>
    intro f k callee args _ hf
    obtain ⟨f', rfl⟩ : ∃ f', f = f' + 1 := ⟨f - 1, by omega⟩
    simp [argTail, Parser.finishCallArgs, Parser.advanceOnly, Parser.consume,
      Parser.advanceExpect]
  | succ n ih =>
    intro f k callee args hle hf
    obtain ⟨f', rfl⟩ : ∃ f', f = f' + 1 := ⟨f - 1, by omega⟩
    have hcap : ¬ (255 ≤ args.length) := by omega
    obtain ⟨t, rest', htr, htyp⟩ := argTail_head (k+1) n
    have hstop := Parser.expression_number_stop f' (by omega) k "1" t rest' htyp
    simp only [argTail]
    rw [htr]
    simp [Parser.finishCallArgs, Parser.advanceOnly, hcap, hstop]
    rw [← htr]
    rw [ih f' (k+1) callee
      (args ++ [Expr.literal (Literal.number (parseNumberLexeme "1"))])
      (by simp; omega) (by omega)]
    simp [List.replicate_succ, List.append_assoc]

/-- The argument loop over `argTail k n` when the arguments would overshoot the cap
(`args.length + n = 256`): the loop fails with `TooManyArguments` at the line of the
*last* comma of the tail (`k + n - 1`) — the comma at which the accumulated argument
count first reaches 255. -/
theorem Parser.finishCallArgs_argTail_err (n : Nat) : ∀ (f k : Nat) (callee : Expr)
    (args : List Expr), args.length + n = 256 → 1 ≤ n → 22 + n ≤ f →
    Parser.finishCallArgs f callee args (argTail k n) =
      .error (ParseError.tooManyArguments (k + n - 1)) := by
  induction n with
  | zero =>
    intro f k callee args _ h1 _
    exact absurd h1 (by omega)
  | succ n ih =>
    intro f k callee args hlen _ hf
    obtain ⟨f', rfl⟩ : ∃ f', f = f' + 1 := ⟨f - 1, by omega⟩
    by_cases hn : n = 0
    · subst hn
      have hcap : 255 ≤ args.length := by omega
      simp [argTail, Parser.finishCallArgs, Parser.advanceOnly, hcap]
    · have hcap : ¬ (255 ≤ args.length) := by omega
      have hn1 : 1 ≤ n := by omega
      obtain ⟨t, rest', htr, htyp⟩ := argTail_head (k+1) n
      have hstop := Parser.expression_number_stop f' (by omega) k "1" t rest' htyp
      simp only [argTail]
      rw [htr]
      simp [Parser.finishCallArgs, Parser.advanceOnly, hcap, hstop]
      rw [← htr]
      rw [ih f' (k+1) callee
        (args ++ [Expr.literal (Literal.number (parseNumberLexeme "1"))])
        (by simp; omega) hn1 (by omega)]
      congr 2
      omega

/-- The parameter loop over `paramTail k n` when the parameters would overshoot the
cap (`params.length + n = 256`): it fails with `TooManyArguments` at the line of the
last comma of the tail (`k + n - 1`). -/
theorem Parser.paramsLoop_paramTail_err (n : Nat) : ∀ (f k : Nat)
    (params : List String), params.length + n = 256 → 1 ≤ n → 1 + n ≤ f →
    Parser.paramsLoop f params (paramTail k n) =
      .error (ParseError.tooManyArguments (k + n - 1)) := by
  induction n with
  | zero =>
    intro f k params _ h1 _
    exact absurd h1 (by omega)
  | succ n ih =>
    intro f k params hlen _ hf
    obtain ⟨f', rfl⟩ : ∃ f', f = f' + 1 := ⟨f - 1, by omega⟩
    by_cases hn : n = 0
    · subst hn
      have hcap : 255 ≤ params.length := by omega
      simp [paramTail, Parser.paramsLoop, Parser.advanceOnly, hcap]
    · have hcap : ¬ (255 ≤ params.length) := by omega
      have hn1 : 1 ≤ n := by omega
      simp [paramTail, Parser.paramsLoop, Parser.advanceOnly, hcap, Parser.consume,
        Parser.advanceExpect]
      rw [ih f' (k+1) (params ++ ["p"]) (by simp; omega) hn1 (by omega)]
      congr 2
      omega


/-- `finish_call` on `1, …`: the first argument is parsed and the argument loop is
entered with it. -/
theorem Parser.finishCall_numHead (f k : Nat) (dTail : List Token) :
    Parser.finishCall (f + 25) (Expr.variable_ "f")
        (⟨0, .number, "1"⟩ :: ⟨k, .comma, ","⟩ :: dTail) =
      Parser.finishCallArgs (f + 24) (Expr.variable_ "f")
        [Expr.literal (Literal.number (parseNumberLexeme "1"))]
        (⟨k, .comma, ","⟩ :: dTail) := by
  have hstop := Parser.expression_number_stop (f + 24) (by omega) 0 "1"
    ⟨k, .comma, ","⟩ dTail (Or.inl rfl)
  simp [Parser.finishCall, Parser.matchNext, Parser.advanceOnly, hstop]

/-- The call loop on `( 1, …` when the argument loop succeeds, with the statement's
`; <eof>` left over: exactly one argument list is consumed. -/
theorem Parser.callLoop_ok (f k : Nat) (dTail : List Token) (E : Expr)
    (hfa : Parser.finishCallArgs (f + 24) (Expr.variable_ "f")
      [Expr.literal (Literal.number (parseNumberLexeme "1"))]
      (⟨k, .comma, ","⟩ :: dTail) =
      .ok (E, [⟨0, .semicolon, ";"⟩, ⟨0, .eof, ""⟩])) :
    Parser.callLoop (f + 26) (Expr.variable_ "f")
        (⟨0, .leftParen, "("⟩ :: ⟨0, .number, "1"⟩ :: ⟨k, .comma, ","⟩ :: dTail) =
      .ok (E, [⟨0, .semicolon, ";"⟩, ⟨0, .eof, ""⟩]) := by
  have h1 := Parser.finishCall_numHead f k dTail
  simp [Parser.callLoop, Parser.matchNext, Parser.advanceOnly, h1, hfa]

/-- The call loop on `( 1, …` when the argument loop fails: the error propagates. -/
theorem Parser.callLoop_err (f k : Nat) (dTail : List Token) (e : ParseError)
    (hfa : Parser.finishCallArgs (f + 24) (Expr.variable_ "f")
      [Expr.literal (Literal.number (parseNumberLexeme "1"))]
      (⟨k, .comma, ","⟩ :: dTail) = .error e) :
    Parser.callLoop (f + 26) (Expr.variable_ "f")
        (⟨0, .leftParen, "("⟩ :: ⟨0, .number, "1"⟩ :: ⟨k, .comma, ","⟩ :: dTail) =
      .error e := by
  have h1 := Parser.finishCall_numHead f k dTail
  simp [Parser.callLoop, Parser.matchNext, Parser.advanceOnly, h1, hfa]

/-- An expression of the shape `f(1, …` when the argument loop succeeds: the
expression is the call node. -/
theorem Parser.expression_callHead_ok (f k : Nat) (dTail : List Token) (E : Expr)
    (hfa : Parser.finishCallArgs (f + 24) (Expr.variable_ "f")
      [Expr.literal (Literal.number (parseNumberLexeme "1"))]
      (⟨k, .comma, ","⟩ :: dTail) =
      .ok (E, [⟨0, .semicolon, ";"⟩, ⟨0, .eof, ""⟩])) :
    Parser.expression (f + 36) (⟨0, .identifier, "f"⟩ :: ⟨0, .leftParen, "("⟩ ::
        ⟨0, .number, "1"⟩ :: ⟨k, .comma, ","⟩ :: dTail) =
      .ok (E, [⟨0, .semicolon, ";"⟩, ⟨0, .eof, ""⟩]) := by
  have h2 := Parser.callLoop_ok f k dTail E hfa
  simp [Parser.expression, Parser.assignment, Parser.orExpr, Parser.orLoop,
    Parser.andExpr, Parser.andLoop, Parser.equality, Parser.comparison, Parser.term,
    Parser.factor, Parser.unaryExpr, Parser.callExpr, Parser.primary,
    Parser.advanceExpect, Parser.advanceAnyOf, Parser.advanceOnly, Parser.matchNext,
    Parser.consume, Parser.isDone, ParseError.wrongToken, ParseError.atEnd,
    TokenType.debugName, h2]

/-- An expression of the shape `f(1, …` when the argument loop fails: the error
propagates through the whole precedence tower. -/
theorem Parser.expression_callHead_err (f k : Nat) (dTail : List Token) (e : ParseError)
    (hfa : Parser.finishCallArgs (f + 24) (Expr.variable_ "f")
      [Expr.literal (Literal.number (parseNumberLexeme "1"))]
      (⟨k, .comma, ","⟩ :: dTail) = .error e) :
    Parser.expression (f + 36) (⟨0, .identifier, "f"⟩ :: ⟨0, .leftParen, "("⟩ ::
        ⟨0, .number, "1"⟩ :: ⟨k, .comma, ","⟩ :: dTail) = .error e := by
  have h2 := Parser.callLoop_err f k dTail e hfa
  simp [Parser.expression, Parser.assignment, Parser.orExpr, Parser.orLoop,
    Parser.andExpr, Parser.andLoop, Parser.equality, Parser.comparison, Parser.term,
    Parser.factor, Parser.unaryExpr, Parser.callExpr, Parser.primary,
    Parser.advanceExpect, Parser.advanceAnyOf, Parser.advanceOnly, Parser.matchNext,
    Parser.consume, Parser.isDone, ParseError.wrongToken, ParseError.atEnd,
    TokenType.debugName, h2]

/-- A program that is the single statement `f(1, …);` when the argument loop
succeeds: the parse result is that one expression statement. -/
theorem Parser.parseLoop_callHead_ok (f k : Nat) (dTail : List Token) (E : Expr)
    (hfa : Parser.finishCallArgs (f + 24) (Expr.variable_ "f")
      [Expr.literal (Literal.number (parseNumberLexeme "1"))]
      (⟨k, .comma, ","⟩ :: dTail) =
      .ok (E, [⟨0, .semicolon, ";"⟩, ⟨0, .eof, ""⟩])) :
    Parser.parseLoop (f + 40) (⟨0, .identifier, "f"⟩ :: ⟨0, .leftParen, "("⟩ ::
        ⟨0, .number, "1"⟩ :: ⟨k, .comma, ","⟩ :: dTail) =
      .ok ([Stmt.expression E], [⟨0, .eof, ""⟩]) := by
  have h3 := Parser.expression_callHead_ok f k dTail E hfa
  simp [Parser.parseLoop, Parser.declaration, Parser.statement, Parser.exprStmt,
    Parser.advanceExpect, Parser.advanceAnyOf, Parser.advanceOnly, Parser.matchNext,
    Parser.consume, Parser.isDone, ParseError.wrongToken, ParseError.atEnd,
    TokenType.debugName, h3]

/-- A program that is the single statement `f(1, …);` when the argument loop fails:
the parse fails with the same error. -/
theorem Parser.parseLoop_callHead_err (f k : Nat) (dTail : List Token) (e : ParseError)
    (hfa : Parser.finishCallArgs (f + 24) (Expr.variable_ "f")
      [Expr.literal (Literal.number (parseNumberLexeme "1"))]
      (⟨k, .comma, ","⟩ :: dTail) = .error e) :
    Parser.parseLoop (f + 40) (⟨0, .identifier, "f"⟩ :: ⟨0, .leftParen, "("⟩ ::
        ⟨0, .number, "1"⟩ :: ⟨k, .comma, ","⟩ :: dTail) = .error e := by
  have h3 := Parser.expression_callHead_err f k dTail e hfa
  simp [Parser.parseLoop, Parser.declaration, Parser.statement, Parser.exprStmt,
    Parser.advanceExpect, Parser.advanceAnyOf, Parser.advanceOnly, Parser.matchNext,
    Parser.consume, Parser.isDone, ParseError.wrongToken, ParseError.atEnd,
    TokenType.debugName, h3]

/-- A program that is a single declaration `fun f(p, …` when the parameter loop
fails: the parse fails with the same error. -/
theorem Parser.parseLoop_funHead_err (f k : Nat) (dTail : List Token) (e : ParseError)
    (hp : Parser.paramsLoop (f + 37) ["p"] (⟨k, .comma, ","⟩ :: dTail) = .error e) :
    Parser.parseLoop (f + 40) (⟨0, .fun_, "fun"⟩ :: ⟨0, .identifier, "f"⟩ ::
        ⟨0, .leftParen, "("⟩ :: ⟨0, .identifier, "p"⟩ :: ⟨k, .comma, ","⟩ :: dTail) =
      .error e := by
  simp [Parser.parseLoop, Parser.declaration, Parser.funcDecl, Parser.funcBody,
    Parser.advanceExpect, Parser.advanceAnyOf, Parser.advanceOnly, Parser.matchNext,
    Parser.consume, Parser.isDone, ParseError.wrongToken, ParseError.atEnd,
    TokenType.debugName, hp]


set_option maxRecDepth 65536 in
/-- **C6 (counterexample).**  A call with 256 arguments has only 255 commas (the
`i`-th at line `i`), so the claim's "line of the 256th comma" names a token that does
not exist; the parser reports `TooManyArguments` at line 255 — the line of the *last*
(255th) comma, the one preceding the 256th argument. -/
theorem c6_counterexample_no_256th_comma :
    Parser.parse (callToks 256) = .error (ParseError.tooManyArguments 255) ∧
    ((callToks 256).filter (fun t => t.typ = TokenType.comma)).length = 255 ∧
    (((callToks 256).filter (fun t => t.typ = TokenType.comma)).getLast?).map
      Token.line = some 255 := by
  refine ⟨?_, by decide, by decide⟩
  have hfa : Parser.finishCallArgs (20640 + 24) (Expr.variable_ "f")
      [Expr.literal (Literal.number (parseNumberLexeme "1"))]
      (⟨1, .comma, ","⟩ :: ⟨1, .number, "1"⟩ :: argTail 2 254) =
      .error (ParseError.tooManyArguments 255) :=
    Parser.finishCallArgs_argTail_err 255 (20640 + 24) 1 (Expr.variable_ "f")
      [Expr.literal (Literal.number (parseNumberLexeme "1"))]
      (by decide) (by omega) (by omega)
  exact Parser.parseLoop_callHead_err 20640 1 (⟨1, .number, "1"⟩ :: argTail 2 254)
    (ParseError.tooManyArguments 255) hfa

set_option maxRecDepth 65536 in
/-- **C6 (amended).**  A call with exactly 255 arguments parses successfully; one
with 256 arguments fails with the too-many-arguments error reported at the line of
the *last* comma — the 255th comma, the one preceding the 256th argument (the source
has only 255 commas, so there is no "256th comma"); likewise a function declaration
with 256 parameters fails with that error at the line of its last (255th) comma, the
one preceding the 256th parameter. -/
theorem c6_parser_caps_arguments_at_255 :
    (Parser.parse (callToks 255)).isOk = true ∧
    Parser.parse (callToks 256) = .error (ParseError.tooManyArguments 255) ∧
    Parser.parse (funToks 256) = .error (ParseError.tooManyArguments 255) ∧
    ((funToks 256).filter (fun t => t.typ = TokenType.comma)).length = 255 ∧
    (((funToks 256).filter (fun t => t.typ = TokenType.comma)).getLast?).map
      Token.line = some 255 := by
  refine ⟨?_, ?_, ?_, by decide, by decide⟩
  · have hfa : Parser.finishCallArgs (20560 + 24) (Expr.variable_ "f")
        [Expr.literal (Literal.number (parseNumberLexeme "1"))]
        (⟨1, .comma, ","⟩ :: ⟨1, .number, "1"⟩ :: argTail 2 253) =
        .ok (Expr.call (Expr.variable_ "f")
            ([Expr.literal (Literal.number (parseNumberLexeme "1"))] ++
              List.replicate 254 (Expr.literal (Literal.number (parseNumberLexeme "1")))),
          [⟨0, .semicolon, ";"⟩, ⟨0, .eof, ""⟩]) :=
      Parser.finishCallArgs_argTail_ok 254 (20560 + 24) 1 (Expr.variable_ "f")
        [Expr.literal (Literal.number (parseNumberLexeme "1"))]
        (by decide) (by omega)
    have hmain := Parser.parseLoop_callHead_ok 20560 1
      (⟨1, .number, "1"⟩ :: argTail 2 253)
      (Expr.call (Expr.variable_ "f")
        ([Expr.literal (Literal.number (parseNumberLexeme "1"))] ++
          List.replicate 254 (Expr.literal (Literal.number (parseNumberLexeme "1")))))
      hfa
    show (Parser.parse (callToks 255)).isOk = true
    rw [show Parser.parse (callToks 255) =
      .ok ([Stmt.expression (Expr.call (Expr.variable_ "f")
          ([Expr.literal (Literal.number (parseNumberLexeme "1"))] ++
            List.replicate 254 (Expr.literal (Literal.number (parseNumberLexeme "1")))))],
        [⟨0, .eof, ""⟩]) from hmain]
    rfl
  · have hfa : Parser.finishCallArgs (20640 + 24) (Expr.variable_ "f")
        [Expr.literal (Literal.number (parseNumberLexeme "1"))]
        (⟨1, .comma, ","⟩ :: ⟨1, .number, "1"⟩ :: argTail 2 254) =
        .error (ParseError.tooManyArguments 255) :=
      Parser.finishCallArgs_argTail_err 255 (20640 + 24) 1 (Expr.variable_ "f")
        [Expr.literal (Literal.number (parseNumberLexeme "1"))]
        (by decide) (by omega) (by omega)
    exact Parser.parseLoop_callHead_err 20640 1 (⟨1, .number, "1"⟩ :: argTail 2 254)
      (ParseError.tooManyArguments 255) hfa
  · have hp : Parser.paramsLoop (20720 + 37) ["p"]
        (⟨1, .comma, ","⟩ :: ⟨1, .identifier, "p"⟩ :: paramTail 2 254) =
        .error (ParseError.tooManyArguments 255) :=
      Parser.paramsLoop_paramTail_err 255 (20720 + 37) 1 ["p"]
        (by decide) (by omega) (by omega)
    exact Parser.parseLoop_funHead_err 20720 1
      (⟨1, .identifier, "p"⟩ :: paramTail 2 254) (ParseError.tooManyArguments 255) hp

set_option maxHeartbeats 16000000 in
set_option maxRecDepth 65536 in
/-- After a complete comparison, the parser expects a statement terminator: on the
token stream `Number < Number < Number ; <eof>` — whatever the payloads — parsing
fails with `UnexpectedToken` at the second `<`, expecting a `Semicolon`, for every
fuel of the form `f + 30`. -/
theorem Parser.parseLoop_less_chain (f a1 a2 a3 a4 a5 a6 a7 : Nat)
    (n1 n3 n5 x2 x4 y z : String) :
    Parser.parseLoop (f + 30) [⟨a1, .number, n1⟩, ⟨a2, .less, x2⟩, ⟨a3, .number, n3⟩,
      ⟨a4, .less, x4⟩, ⟨a5, .number, n5⟩, ⟨a6, .semicolon, y⟩, ⟨a7, .eof, z⟩] =
      .error (ParseError.unexpectedToken TokenType.less a4 x4
        "token of type Semicolon") := by
  simp [Parser.parseLoop, Parser.declaration, Parser.statement, Parser.varDecl,
    Parser.funcDecl, Parser.exprStmt, Parser.expression, Parser.assignment,
    Parser.orExpr, Parser.orLoop, Parser.andExpr, Parser.andLoop, Parser.equality,
    Parser.comparison, Parser.term, Parser.factor, Parser.unaryExpr, Parser.callExpr,
    Parser.callLoop, Parser.finishCall, Parser.finishCallArgs, Parser.primary,
    Parser.advanceExpect, Parser.advanceAnyOf, Parser.advanceOnly, Parser.matchNext,
    Parser.consume, Parser.isDone, ParseError.wrongToken, ParseError.atEnd,
    TokenType.debugName]

/-- **C7.**  Comparison operators do not chain: for *every* token stream of the shape
`Number < Number < Number ; <eof>` (any lines and lexemes, any fuel of the shape
`f + 30`), the parser fails with `UnexpectedToken` at the second `<` expecting a
`Semicolon` — it parses `1 < 2` as a complete comparison and then demands the
statement's terminator instead of building a three-way comparison; in particular the
full pipeline on the source `1 < 2 < 3;` fails exactly so. -/
theorem c7_comparison_not_chainable (f a1 a2 a3 a4 a5 a6 a7 : Nat)
    (n1 n3 n5 x2 x4 y z : String) :
    Parser.parseLoop (f + 30) [⟨a1, .number, n1⟩, ⟨a2, .less, x2⟩, ⟨a3, .number, n3⟩,
      ⟨a4, .less, x4⟩, ⟨a5, .number, n5⟩, ⟨a6, .semicolon, y⟩, ⟨a7, .eof, z⟩] =
      .error (ParseError.unexpectedToken TokenType.less a4 x4
        "token of type Semicolon") ∧
    Parser.parse (tokensOf "1 < 2 < 3;".toList) =
      .error (ParseError.unexpectedToken TokenType.less 1 "<"
        "token of type Semicolon") := by
  refine ⟨Parser.parseLoop_less_chain f a1 a2 a3 a4 a5 a6 a7 n1 n3 n5 x2 x4 y z, ?_⟩
  have htoks : tokensOf "1 < 2 < 3;".toList =
      [⟨1, .number, "1"⟩, ⟨1, .less, "<"⟩, ⟨1, .number, "2"⟩, ⟨1, .less, "<"⟩,
       ⟨1, .number, "3"⟩, ⟨1, .semicolon, ";"⟩, ⟨1, .eof, ""⟩] := by decide
  rw [htoks]
  show Parser.parseLoop (Parser.fuelFor [⟨1, .number, "1"⟩, ⟨1, .less, "<"⟩,
    ⟨1, .number, "2"⟩, ⟨1, .less, "<"⟩, ⟨1, .number, "3"⟩, ⟨1, .semicolon, ";"⟩,
    ⟨1, .eof, ""⟩]) [⟨1, .number, "1"⟩, ⟨1, .less, "<"⟩, ⟨1, .number, "2"⟩,
    ⟨1, .less, "<"⟩, ⟨1, .number, "3"⟩, ⟨1, .semicolon, ";"⟩, ⟨1, .eof, ""⟩] = _
  rw [show Parser.fuelFor [⟨1, .number, "1"⟩, ⟨1, .less, "<"⟩, ⟨1, .number, "2"⟩,
    ⟨1, .less, "<"⟩, ⟨1, .number, "3"⟩, ⟨1, .semicolon, ";"⟩, ⟨1, .eof, ""⟩] = 290 + 30
    from by decide]
  exact Parser.parseLoop_less_chain 290 1 1 1 1 1 1 1 "1" "2" "3" "<" "<" ";" ""

end Lox
